import Mathlib

/-!
# Verification of the SNOWTAM viewer's extraction and classification core

This file gives a shallow embedding, in Lean 4, of the pure core of
`scripts/update_snowtams.py`:

* `snowtam_severity` — the severity classifier,
* `extract_text_blocks` — the text-block extractor (taken from the point
  where the external BeautifulSoup library has produced the plain-text
  rendering `text = soup.get_text("\n")`; the HTML-to-text conversion
  itself is third-party library code, not part of this repository),
* `received_to_iso` — the timestamp parser (`datetime.strptime` with the
  fixed format `"%Y-%m-%d %H:%M UTC"`, embedded with CPython's actual
  field patterns: `%Y` is exactly four digits, `%m`/`%d`/`%H`/`%M` accept
  one or two digits within their ranges, literal whitespace in the format
  matches a run of whitespace, and the literal `UTC` is matched
  case-insensitively, the whole input must be consumed, and the resulting
  fields must form a valid calendar date),
* `stable_hash` — the SHA-256 based content fingerprint.

Strings are handled through their underlying `List Char`.  Python's
`str.upper`, `str.strip` and the character classes `[0-9]`, `\s`, `\w`
are embedded at ASCII precision (the data processed by the program is
ASCII); machine integers do not occur except for the 32-bit words of
SHA-256, which are embedded as `Nat` with explicit `% 2 ^ 32`.
-/

/-! ## Python string primitives -/

/-- Python whitespace (`str.strip`, `str.split`, regex `\s`) at ASCII
precision: space, tab, newline, carriage return, vertical tab, form feed. -/
def isPySpace (c : Char) : Bool :=
  c.toNat = 32 || c.toNat = 9 || c.toNat = 10 || c.toNat = 13 ||
  c.toNat = 11 || c.toNat = 12

/-- The regex character class `[0-9]`. -/
def isDig (c : Char) : Bool :=
  48 ≤ c.toNat && c.toNat ≤ 57

/-- Numeric value of a decimal digit character. -/
def digitVal (c : Char) : Nat := c.toNat - 48

/-- Python `str.lstrip()` on a character list. -/
def pyLstripL (l : List Char) : List Char := l.dropWhile isPySpace

/-- Python `str.rstrip()` on a character list. -/
def pyRstripL (l : List Char) : List Char :=
  (l.reverse.dropWhile isPySpace).reverse

/-- Python `str.strip()` on a character list. -/
def pyStripL (l : List Char) : List Char := pyLstripL (pyRstripL l)

/-- Python `str.strip()`. -/
def pyStrip (s : String) : String := String.mk (pyStripL s.data)

/-- Python `str.upper()` (ASCII precision) on a character list. -/
def pyUpperL (l : List Char) : List Char := l.map Char.toUpper

/-- Search for the pattern `pat` in `hay`, returning the index (counted
from `i`) of the first position where `pat` is a prefix; embeds the
scanning behaviour of Python's `str.find` / `re.search` for literal
patterns. -/
def findSubAux (pat : List Char) : List Char → Nat → Option Nat
  | hay, i =>
    if pat.isPrefixOf hay then some i
    else
      match hay with
      | [] => none
      | _ :: t => findSubAux pat t (i + 1)

/-- Index of the first occurrence of `pat` in `hay` (Python `str.find` /
`str.index`, as an `Option`). -/
def findSub (hay pat : List Char) : Option Nat := findSubAux pat hay 0

/-- Python `hay.find(pat, start)` as an `Option`. -/
def findSubFrom (hay pat : List Char) (start : Nat) : Option Nat :=
  (findSubAux pat (hay.drop start) 0).map (· + start)

/-- Python's substring containment test `pat in hay`. -/
def containsSubL (hay pat : List Char) : Bool := (findSub hay pat).isSome

/-! ## The severity classifier `snowtam_severity` -/

theorem length_dropWhile_le' (p : Char → Bool) (l : List Char) :
    (l.dropWhile p).length ≤ l.length := by
  induction l with
  | nil => simp [List.dropWhile]
  | cons c t ih =>
    simp only [List.dropWhile]
    split
    · simpa using Nat.le_succ_of_le ih
    · simp

/-- Regex `\s+` (greedy): require at least one whitespace character,
then drop the whole run.  The maximal munch coincides with the regex
semantics everywhere it is used below, because the token following
`\s+` never matches a whitespace character. -/
def wsPlus1 : List Char → Option (List Char)
  | [] => none
  | c :: rest => if isPySpace c then some (rest.dropWhile isPySpace) else none

theorem wsPlus1_length {l r : List Char} (h : wsPlus1 l = some r) :
    r.length < l.length := by
  match l with
  | [] => cases h
  | c :: rest =>
    simp only [wsPlus1] at h
    split at h
    · cases h
      exact Nat.lt_succ_of_le (length_dropWhile_le' isPySpace rest)
    · cases h

/-- Regex `([0-9])`: one digit character, returned as its value. -/
def oneDigit : List Char → Option (Nat × List Char)
  | [] => none
  | c :: rest => if isDig c then some (digitVal c, rest) else none

theorem oneDigit_length {l : List Char} {d : Nat} {r : List Char}
    (h : oneDigit l = some (d, r)) : r.length < l.length := by
  match l with
  | [] => cases h
  | c :: rest =>
    simp only [oneDigit] at h
    split at h
    · cases h
      simp
    · cases h

/-- Match a literal string at the head of the input and drop it. -/
def dropLit (lit : List Char) (l : List Char) : Option (List Char) :=
  if lit.isPrefixOf l then some (l.drop lit.length) else none

theorem dropLit_length {lit l r : List Char} (h : dropLit lit l = some r) :
    r.length ≤ l.length := by
  unfold dropLit at h
  split at h
  · cases h
    simpa using Nat.sub_le l.length lit.length
  · cases h

/-- One `re.finditer` step for the pattern
`SURFACE CONDITION CODE\s+([0-9])\s+([0-9])\s+([0-9])`: try to match at
the head of `l`; on success return the three digits and the remainder of
the input after the match. -/
def matchSCCAt (l : List Char) : Option (Nat × Nat × Nat × List Char) :=
  (dropLit "SURFACE CONDITION CODE".data l).bind fun l1 =>
  (wsPlus1 l1).bind fun l2 =>
  (oneDigit l2).bind fun (d1, l3) =>
  (wsPlus1 l3).bind fun l4 =>
  (oneDigit l4).bind fun (d2, l5) =>
  (wsPlus1 l5).bind fun l6 =>
  (oneDigit l6).bind fun (d3, l7) =>
  some (d1, d2, d3, l7)

theorem matchSCCAt_length {l : List Char} {a b c : Nat} {r : List Char}
    (h : matchSCCAt l = some (a, b, c, r)) : r.length < l.length := by
  unfold matchSCCAt at h
  rw [Option.bind_eq_some] at h
  obtain ⟨l1, h1, h⟩ := h
  rw [Option.bind_eq_some] at h
  obtain ⟨l2, h2, h⟩ := h
  rw [Option.bind_eq_some] at h
  obtain ⟨⟨d1, l3⟩, h3, h⟩ := h
  rw [Option.bind_eq_some] at h
  obtain ⟨l4, h4, h⟩ := h
  rw [Option.bind_eq_some] at h
  obtain ⟨⟨d2, l5⟩, h5, h⟩ := h
  rw [Option.bind_eq_some] at h
  obtain ⟨l6, h6, h⟩ := h
  rw [Option.bind_eq_some] at h
  obtain ⟨⟨d3, l7⟩, h7, h⟩ := h
  cases h
  have e1 := dropLit_length h1
  have e2 := wsPlus1_length h2
  have e3 := oneDigit_length h3
  have e4 := wsPlus1_length h4
  have e5 := oneDigit_length h5
  have e6 := wsPlus1_length h6
  have e7 := oneDigit_length h7
  omega

/-- Fuel-indexed version of the `re.finditer` scan: at each position try
`matchSCCAt`; on a match collect the three digits and resume after the
match (matches are non-overlapping), otherwise advance one character.
The fuel only serves structural recursion; `sccScanF_congr` below shows
any fuel at least the input length gives the same result, so
`sccScan l = sccScanF l.length l` is the exact scan. -/
def sccScanF : Nat → List Char → List Nat
  | 0, _ => []
  | fuel + 1, l =>
    match matchSCCAt l with
    | some (a, b, c, r) => a :: b :: c :: sccScanF fuel r
    | none =>
      match l with
      | [] => []
      | _ :: rest => sccScanF fuel rest

theorem sccScanF_nil (f : Nat) : sccScanF f [] = [] := by
  cases f
  · rfl
  · rfl

theorem sccScanF_congr :
    ∀ (f1 f2 : Nat) (l : List Char),
      l.length ≤ f1 → l.length ≤ f2 → sccScanF f1 l = sccScanF f2 l := by
  intro f1
  induction f1 with
  | zero =>
    intro f2 l h1 _
    have : l = [] := List.eq_nil_of_length_eq_zero (Nat.le_zero.mp h1)
    subst this
    rw [sccScanF_nil, sccScanF_nil]
  | succ n ih =>
    intro f2 l h1 h2
    match l with
    | [] => rw [sccScanF_nil, sccScanF_nil]
    | c :: rest =>
      have hlen : (c :: rest).length = rest.length + 1 := rfl
      match f2 with
      | 0 => omega
      | k + 1 =>
        show sccScanF (n + 1) (c :: rest) = sccScanF (k + 1) (c :: rest)
        simp only [sccScanF]
        cases hm : matchSCCAt (c :: rest) with
        | some t =>
          obtain ⟨a, b, cc, r⟩ := t
          have hr := matchSCCAt_length hm
          simp only []
          rw [ih k r (by simp at hr ⊢; omega) (by simp at hr ⊢; omega)]
        | none =>
          simp only []
          rw [ih k rest (by simp at h1 ⊢; omega) (by simp at h2 ⊢; omega)]

/-- The flat list of digits collected by the `re.finditer` loop over
`SURFACE CONDITION CODE\s+([0-9])\s+([0-9])\s+([0-9])`. -/
def sccScan (l : List Char) : List Nat := sccScanF l.length l

/-- Python `min` of a non-empty integer list (left fold). -/
def listMin : List Nat → Nat
  | [] => 0
  | x :: xs => xs.foldl Nat.min x

/-- Python `min(codes) if codes else None`. -/
def minCode : List Nat → Option Nat
  | [] => none
  | x :: xs => some ((x :: xs).foldl Nat.min (x :: xs).headI)

/-- The closure-indicator scan
`any(k in upper for k in ["CLOSED", "CLSD", "RWY CLSD", "RUNWAY CLSD"])`. -/
def closureHit (upper : List Char) : Bool :=
  ["CLOSED", "CLSD", "RWY CLSD", "RUNWAY CLSD"].any
    (fun k => containsSubL upper k.data)

/-- Embedding of `snowtam_severity(raw, decode)`: returns the
`(severity, summary)` pair. -/
def snowtam_severity (raw decode : String) : String × String :=
  if pyStrip raw = "" then ("ok", "No valid SNOWTAM")
  else
    let upper := pyUpperL (raw.data ++ '\n' :: decode.data)
    if closureHit upper then ("red", "Runway closed indicator found")
    else if containsSubL upper "BRAKING ACTION".data &&
            containsSubL upper "POOR".data then
      ("red", "Braking action POOR")
    else
      let codes := sccScan (pyUpperL decode.data)
      let hasPoor := containsSubL upper " POOR".data
      match minCode codes with
      | some m =>
        let sev := if m ≤ 2 then "red" else if 3 ≤ m && m ≤ 4 then "orange" else "yellow"
        let sev2 := if hasPoor && (sev == "yellow") then "orange" else sev
        (sev2, "minRWYCC=" ++ toString m ++ "; poorAreas=" ++
          (if hasPoor then "True" else "False"))
      | none =>
        if hasPoor then ("orange", "Could not parse RWYCC; POOR movement area noted")
        else ("yellow", "Could not parse RWYCC; SNOWTAM present")

/-! ## Classifier lemmas -/

theorem pyStripL_eq_nil_of_all_space {l : List Char}
    (h : ∀ c ∈ l, isPySpace c = true) : pyStripL l = [] := by
  have hr : pyRstripL l = [] := by
    unfold pyRstripL
    have : l.reverse.dropWhile isPySpace = [] := by
      rw [List.dropWhile_eq_nil_iff]
      intro x hx
      exact h x (List.mem_reverse.mp hx)
    rw [this]
    rfl
  unfold pyStripL
  rw [hr]
  rfl

theorem string_mk_nil_eq_empty : String.mk ([] : List Char) = "" := rfl

/-- Claim C3: for every `decodeBlock` and every `rawBlock` that is empty or
consists only of whitespace, the classifier returns exactly
`(ok, "No valid SNOWTAM")`, regardless of anything in the decode block
(this branch precedes every other rule). -/
theorem C3_empty_raw_ok (raw decode : String)
    (h : ∀ c ∈ raw.data, isPySpace c = true) :
    snowtam_severity raw decode = ("ok", "No valid SNOWTAM") := by
  have hs : pyStrip raw = "" := by
    unfold pyStrip
    rw [pyStripL_eq_nil_of_all_space h]
  unfold snowtam_severity
  rw [if_pos hs]

/-- Witness for C3 at a whitespace-only raw block and a decode block that
would otherwise classify as red. -/
theorem C3_empty_raw_ok_witness :
    (∀ c ∈ (" \t" : String).data, isPySpace c = true) ∧
    snowtam_severity " \t" "SURFACE CONDITION CODE 0 0 0 CLSD" = ("ok", "No valid SNOWTAM") :=
  ⟨by decide, C3_empty_raw_ok " \t" "SURFACE CONDITION CODE 0 0 0 CLSD" (by decide)⟩

/-- Claim C2 (as stated) is false: when `rawBlock` is empty the classifier
returns `(ok, "No valid SNOWTAM")` even though `CLSD` occurs in the
concatenation of raw and decode. -/
theorem C2_counterexample :
    containsSubL (pyUpperL (("" : String).data ++ '\n' :: ("CLSD" : String).data))
      "CLSD".data = true ∧
    snowtam_severity "" "CLSD" = ("ok", "No valid SNOWTAM") := by
  constructor
  · decide
  · decide

/-- Claim C2, amended: for every input pair whose `rawBlock` is non-blank,
if `CLSD` occurs (after uppercasing) anywhere in the newline-joined
concatenation of raw and decode, the classifier returns
`(red, "Runway closed indicator found")`, regardless of any condition
codes present. -/
theorem C2_clsd_red (raw decode : String)
    (h1 : pyStrip raw ≠ "")
    (h2 : containsSubL (pyUpperL (raw.data ++ '\n' :: decode.data)) "CLSD".data = true) :
    snowtam_severity raw decode = ("red", "Runway closed indicator found") := by
  have hc : closureHit (pyUpperL (raw.data ++ '\n' :: decode.data)) = true := by
    simp [closureHit, h2]
  unfold snowtam_severity
  rw [if_neg h1]
  simp only [hc, if_true]

/-- Witness for C2 (amended) on a lowercase closure marker with condition
codes present. -/
theorem C2_clsd_red_witness :
    pyStrip "rwy 31L clsd" ≠ "" ∧
    containsSubL (pyUpperL (("rwy 31L clsd" : String).data ++
      '\n' :: ("SURFACE CONDITION CODE 5 5 5" : String).data)) "CLSD".data = true ∧
    snowtam_severity "rwy 31L clsd" "SURFACE CONDITION CODE 5 5 5" =
      ("red", "Runway closed indicator found") :=
  ⟨by decide, by decide,
   C2_clsd_red "rwy 31L clsd" "SURFACE CONDITION CODE 5 5 5" (by decide) (by decide)⟩

/-- Claim C1: with a non-blank raw block, no closure indicator, and not
both `BRAKING ACTION` and `POOR` present, if at least one
`SURFACE CONDITION CODE d d d` pattern is found in the decode block then
the tier is `red` when the minimum collected digit is at most 2, `orange`
when it is 3 or 4, and `yellow` when it is at least 5 except that a
space-prefixed `POOR` upgrades `yellow` to `orange` (it never upgrades
`red` or `orange`); the summary reports the minimum code and the `POOR`
flag. -/
theorem C1_condition_codes (raw decode : String)
    (h1 : pyStrip raw ≠ "")
    (h2 : closureHit (pyUpperL (raw.data ++ '\n' :: decode.data)) = false)
    (h3 : (containsSubL (pyUpperL (raw.data ++ '\n' :: decode.data)) "BRAKING ACTION".data &&
           containsSubL (pyUpperL (raw.data ++ '\n' :: decode.data)) "POOR".data) = false)
    (h4 : sccScan (pyUpperL decode.data) ≠ []) :
    snowtam_severity raw decode =
      ((if listMin (sccScan (pyUpperL decode.data)) ≤ 2 then "red"
        else if listMin (sccScan (pyUpperL decode.data)) ≤ 4 then "orange"
        else if containsSubL (pyUpperL (raw.data ++ '\n' :: decode.data)) " POOR".data
             then "orange" else "yellow"),
       "minRWYCC=" ++ toString (listMin (sccScan (pyUpperL decode.data))) ++
         "; poorAreas=" ++
         (if containsSubL (pyUpperL (raw.data ++ '\n' :: decode.data)) " POOR".data
          then "True" else "False")) := by
  unfold snowtam_severity
  rw [if_neg h1]
  simp only [h2, h3, Bool.false_eq_true, if_false]
  cases hcodes : sccScan (pyUpperL decode.data) with
  | nil => exact absurd hcodes h4
  | cons x xs =>
    simp only [hcodes, minCode, listMin]
    by_cases hm2 : xs.foldl Nat.min x ≤ 2
    · simp [hm2]
    · by_cases hm4 : xs.foldl Nat.min x ≤ 4
      · have h3le : 3 ≤ xs.foldl Nat.min x := by omega
        simp [hm2, hm4, h3le]
      · by_cases hp : containsSubL (pyUpperL (raw.data ++ '\n' :: decode.data)) " POOR".data
        · simp [hm2, hm4, hp]
        · simp [hm2, hm4, hp]

/-- Witness for C1 at the spec's own example decode
`SURFACE CONDITION CODE 2 3 4` (minimum 2, tier red). -/
theorem C1_condition_codes_witness :
    sccScan (pyUpperL ("SURFACE CONDITION CODE 2 3 4" : String).data) ≠ [] ∧
    snowtam_severity "SWLH0012 LHBP 01090622" "SURFACE CONDITION CODE 2 3 4" =
      ("red", "minRWYCC=2; poorAreas=False") := by
  constructor
  · decide
  · rw [C1_condition_codes "SWLH0012 LHBP 01090622" "SURFACE CONDITION CODE 2 3 4"
      (by decide) (by decide) (by decide) (by decide)]
    decide

/-- Claim C4: with a non-blank raw block, no closure or braking-action red
indicator, and no parseable `SURFACE CONDITION CODE d d d` pattern, the
classifier returns the orange `POOR` fallback when a space-prefixed
`POOR` occurs, and the yellow fallback otherwise; it never returns `ok`
here. -/
theorem C4_fallback (raw decode : String)
    (h1 : pyStrip raw ≠ "")
    (h2 : closureHit (pyUpperL (raw.data ++ '\n' :: decode.data)) = false)
    (h3 : (containsSubL (pyUpperL (raw.data ++ '\n' :: decode.data)) "BRAKING ACTION".data &&
           containsSubL (pyUpperL (raw.data ++ '\n' :: decode.data)) "POOR".data) = false)
    (h4 : sccScan (pyUpperL decode.data) = []) :
    snowtam_severity raw decode =
      (if containsSubL (pyUpperL (raw.data ++ '\n' :: decode.data)) " POOR".data
       then ("orange", "Could not parse RWYCC; POOR movement area noted")
       else ("yellow", "Could not parse RWYCC; SNOWTAM present")) ∧
    (snowtam_severity raw decode).1 ≠ "ok" := by
  have hmain : snowtam_severity raw decode =
      (if containsSubL (pyUpperL (raw.data ++ '\n' :: decode.data)) " POOR".data
       then ("orange", "Could not parse RWYCC; POOR movement area noted")
       else ("yellow", "Could not parse RWYCC; SNOWTAM present")) := by
    unfold snowtam_severity
    rw [if_neg h1]
    simp only [h2, h3, Bool.false_eq_true, if_false, h4, minCode]
  refine ⟨hmain, ?_⟩
  rw [hmain]
  by_cases hp : containsSubL (pyUpperL (raw.data ++ '\n' :: decode.data)) " POOR".data
  · simp [hp]
  · simp [hp]

/-- Witness for C4 on a raw block with no parseable codes and no POOR. -/
theorem C4_fallback_witness :
    pyStrip "SWLH0012 LHBP 01090622" ≠ "" ∧
    sccScan (pyUpperL ("NIL" : String).data) = [] ∧
    (snowtam_severity "SWLH0012 LHBP 01090622" "NIL" =
      ("yellow", "Could not parse RWYCC; SNOWTAM present") ∧
     (snowtam_severity "SWLH0012 LHBP 01090622" "NIL").1 ≠ "ok") := by
  refine ⟨by decide, by decide, ?_⟩
  have h := C4_fallback "SWLH0012 LHBP 01090622" "NIL"
    (by decide) (by decide) (by decide) (by decide)
  exact ⟨by rw [h.1]; decide, h.2⟩

/-! ## The block extractor `extract_text_blocks`

The embedding starts from the plain-text rendering
`text = soup.get_text("\n")`; producing that rendering is the external
BeautifulSoup library, not code of this repository. -/

/-- Python `str.splitlines()` (accumulator holds the current line in
reverse): lines are broken at `\r\n`, `\r` or `\n`; a trailing break does
not produce a final empty line. -/
def pySplitlinesAux : List Char → List Char → List (List Char)
  | [], acc => if acc.isEmpty then [] else [acc.reverse]
  | '\r' :: '\n' :: rest, acc => acc.reverse :: pySplitlinesAux rest []
  | '\r' :: rest, acc => acc.reverse :: pySplitlinesAux rest []
  | '\n' :: rest, acc => acc.reverse :: pySplitlinesAux rest []
  | c :: rest, acc => pySplitlinesAux rest (c :: acc)

/-- `[ln.rstrip() for ln in text.splitlines() if ln.strip() != ""]`. -/
def pyLines (l : List Char) : List (List Char) :=
  ((pySplitlinesAux l []).filter (fun ln => !(pyStripL ln).isEmpty)).map pyRstripL

/-- Python `sep.join(parts)`. -/
def joinSep (sep : List Char) : List (List Char) → List Char
  | [] => []
  | [x] => x
  | x :: y :: rest => x ++ sep ++ joinSep sep (y :: rest)

/-- The heading `UNOFFICIAL PLAIN LANGUAGE DECODE`. -/
def decodeHeading : List Char := "UNOFFICIAL PLAIN LANGUAGE DECODE".data

/-- The heading `UNOFFICIAL PLAIN LANGUAGE DECODE OPPOSITE DIRECTION`. -/
def decodeHeading2 : List Char :=
  "UNOFFICIAL PLAIN LANGUAGE DECODE OPPOSITE DIRECTION".data

/-- The trailing marker `Select voice:`. -/
def selectVoice : List Char := "Select voice:".data

/-- Python `str.split()` (split on whitespace runs, no empty words); the
accumulator holds the current word in reverse. -/
def pySplitAux : List Char → List Char → List (List Char)
  | [], acc => if acc.isEmpty then [] else [acc.reverse]
  | c :: rest, acc =>
    if isPySpace c then
      if acc.isEmpty then pySplitAux rest [] else acc.reverse :: pySplitAux rest []
    else pySplitAux rest (c :: acc)

/-- Regex `\w` (ASCII precision): letters, digits, underscore. -/
def isWordChar (c : Char) : Bool :=
  isDig c || (65 ≤ c.toNat && c.toNat ≤ 90) ||
  (97 ≤ c.toNat && c.toNat ≤ 122) || c.toNat = 95

/-- The regex character class `[A-Z0-9]`. -/
def isUpperAlphaNum (c : Char) : Bool :=
  (65 ≤ c.toNat && c.toNat ≤ 90) || isDig c

/-- `SNOWTAM` at the head of the input, with a word boundary after it. -/
def snowtamWordHere (l : List Char) : Bool :=
  "SNOWTAM".data.isPrefixOf l &&
  (match l.drop 7 with
   | [] => true
   | d :: _ => !isWordChar d)

/-- `re.search(r"\bSNOWTAM\b", ln)` as a boolean: scan every position,
carrying the previous character for the left word boundary. -/
def hasSnowtamWordGo : Option Char → List Char → Bool
  | _, [] => false
  | prev, c :: rest =>
    ((match prev with
      | none => true
      | some p => !isWordChar p) && snowtamWordHere (c :: rest))
    || hasSnowtamWordGo (some c) rest

/-- The three start-line tests of the raw-block heuristic, each requiring
the line to start with `SW`:
`"SNOWTAM" in " ".join(lines[i:i+5])`, then `re.search(r"\bSNOWTAM\b", ln)`,
then `len(ln.split()) >= 3 and re.fullmatch(r"[A-Z0-9]{4}", ln.split()[1])`. -/
def startCond (all : List (List Char)) (i : Nat) (ln : List Char) : Bool :=
  ("SW".data.isPrefixOf ln &&
     containsSubL (joinSep [' '] ((all.drop i).take 5)) "SNOWTAM".data)
  || ("SW".data.isPrefixOf ln && hasSnowtamWordGo none ln)
  || ("SW".data.isPrefixOf ln &&
        (3 ≤ (pySplitAux ln []).length) &&
        ((pySplitAux ln []).getD 1 []).length = 4 &&
        ((pySplitAux ln []).getD 1 []).all isUpperAlphaNum)

/-- The `for i, ln in enumerate(lines)` search for the first start line. -/
def findStartGo (all : List (List Char)) : Nat → List (List Char) → Option Nat
  | _, [] => none
  | i, ln :: rest => if startCond all i ln then some i else findStartGo all (i + 1) rest

/-- The collection loop of the raw block: append each line, and stop
after a line whose stripped form ends with `)` or `).` provided the
decode heading occurs in the 120-line window (the window test `stop` is
invariant across iterations, so it is computed once by the caller). -/
def collectGo (stop : Bool) : List (List Char) → List (List Char)
  | [] => []
  | ln :: rest =>
    ln :: (if (List.isSuffixOf ").".data (pyStripL ln) ||
               List.isSuffixOf ")".data (pyStripL ln)) && stop
           then [] else collectGo stop rest)

/-- `"\n".join(collected).strip()` for start index `i`. -/
def rawFrom (lines : List (List Char)) (i : Nat) : List Char :=
  pyStripL (joinSep ['\n']
    (collectGo
      (containsSubL (joinSep ['\n'] ((lines.drop i).take 120)) decodeHeading)
      (lines.drop i)))

/-- Regex `([0-9]{2}` fragment: two digit characters. -/
def take2dCh : List Char → Option (Char × Char × List Char)
  | a :: b :: rest => if isDig a && isDig b then some (a, b, rest) else none
  | _ => none

/-- Regex `[0-9]{4}` fragment: four digit characters. -/
def take4dCh : List Char → Option (Char × Char × Char × Char × List Char)
  | a :: b :: c :: d :: rest =>
    if isDig a && isDig b && isDig c && isDig d then some (a, b, c, d, rest) else none
  | _ => none

/-- Regex `\s+` returning the matched run together with the rest. -/
def takeWsPlus : List Char → Option (List Char × List Char)
  | [] => none
  | c :: rest =>
    if isPySpace c then some (c :: rest.takeWhile isPySpace, rest.dropWhile isPySpace)
    else none

/-- A single literal character. -/
def expectCh (ch : Char) : List Char → Option (List Char)
  | [] => none
  | c :: rest => if c = ch then some rest else none

/-- One attempt of
`re.search(r"Received on:\s*([0-9]{4}-[0-9]{2}-[0-9]{2}\s+[0-9]{2}:[0-9]{2}\s+UTC)", text)`
at the current position: on success, return the text of capture group 1. -/
def matchReceivedAt (l : List Char) : Option (List Char) :=
  (dropLit "Received on:".data l).bind fun l0 =>
  (take4dCh (l0.dropWhile isPySpace)).bind fun (y1, y2, y3, y4, l1) =>
  (expectCh '-' l1).bind fun l2 =>
  (take2dCh l2).bind fun (m1, m2, l3) =>
  (expectCh '-' l3).bind fun l4 =>
  (take2dCh l4).bind fun (d1, d2, l5) =>
  (takeWsPlus l5).bind fun (w1, l6) =>
  (take2dCh l6).bind fun (h1, h2, l7) =>
  (expectCh ':' l7).bind fun l8 =>
  (take2dCh l8).bind fun (n1, n2, l9) =>
  (takeWsPlus l9).bind fun (w2, l10) =>
  (dropLit "UTC".data l10).bind fun _ =>
  some ([y1, y2, y3, y4, '-', m1, m2, '-', d1, d2] ++ w1 ++
        [h1, h2, ':', n1, n2] ++ w2 ++ ['U', 'T', 'C'])

/-- `re.search` for the `Received on:` pattern: first position (leftmost)
at which the whole pattern matches. -/
def searchReceivedGo : List Char → Option (List Char)
  | [] => none
  | c :: rest =>
    match matchReceivedAt (c :: rest) with
    | some cap => some cap
    | none => searchReceivedGo rest

/-- `slice_between(head, next_head)`: find the first occurrence of `head`;
from its end, find `next_head` (or use the end of the text); return the
stripped text in between.  A missing `head` yields the empty string. -/
def sliceBetween (l hd nxt : List Char) : List Char :=
  match findSub l hd with
  | none => []
  | some a =>
    pyStripL ((l.take ((findSubFrom l nxt (a + hd.length)).getD l.length)).drop
      (a + hd.length))

/-- Embedding of `extract_text_blocks`, from the plain-text rendering of
the page: returns `(received, raw, decode, decodeOpposite)`. -/
def extract_text_blocks (text : String) : String × String × String × String :=
  let l := text.data
  let received := ((searchReceivedGo l).map String.mk).getD ""
  let lines := pyLines l
  let raw :=
    match findStartGo lines 0 lines with
    | none => ""
    | some i => String.mk (rawFrom lines i)
  let decode := String.mk (sliceBetween l decodeHeading decodeHeading2)
  let decode2 := String.mk (sliceBetween l decodeHeading2 selectVoice)
  (received, raw, decode, decode2)

/-! ## Lemmas about stripping, joining and containment -/

theorem head?_dropWhile_not (p : Char → Bool) :
    ∀ (l : List Char) {a : Char}, (l.dropWhile p).head? = some a → p a = false := by
  intro l
  induction l with
  | nil => intro a h; cases h
  | cons c t ih =>
    intro a h
    rw [List.dropWhile_cons] at h
    by_cases hp : p c = true
    · rw [if_pos hp] at h
      exact ih h
    · rw [if_neg hp] at h
      cases h
      simpa using hp

theorem getLast?_dropWhile (p : Char → Bool) :
    ∀ (l : List Char), l.dropWhile p ≠ [] →
      (l.dropWhile p).getLast? = l.getLast? := by
  intro l
  induction l with
  | nil => intro h; simp at h
  | cons c t ih =>
    intro h
    rw [List.dropWhile_cons] at h ⊢
    by_cases hp : p c = true
    · rw [if_pos hp] at h ⊢
      have ht : t ≠ [] := by
        intro he
        rw [he] at h
        simp [List.dropWhile] at h
      match t with
      | b :: t2 => rw [ih h, List.getLast?_cons_cons]
    · rw [if_neg hp]

theorem pyLstripL_eq_self {l : List Char}
    (h1 : ∀ c, l.head? = some c → isPySpace c = false) : pyLstripL l = l := by
  unfold pyLstripL
  cases l with
  | nil => rfl
  | cons c t =>
    rw [List.dropWhile_cons, h1 c rfl]
    simp

theorem pyRstripL_eq_self {l : List Char}
    (h2 : ∀ c, l.getLast? = some c → isPySpace c = false) : pyRstripL l = l := by
  unfold pyRstripL
  rcases hr : l.reverse with _ | ⟨c, t⟩
  · have := congrArg List.reverse hr
    simp at this
    simp [this]
  · have hc : l.getLast? = some c := by
      rw [← List.head?_reverse, hr]
      rfl
    rw [List.dropWhile_cons, h2 c hc]
    simp only [Bool.false_eq_true, if_false]
    rw [← hr, List.reverse_reverse]

theorem pyStripL_eq_self {l : List Char}
    (h1 : ∀ c, l.head? = some c → isPySpace c = false)
    (h2 : ∀ c, l.getLast? = some c → isPySpace c = false) : pyStripL l = l := by
  unfold pyStripL
  rw [pyRstripL_eq_self h2, pyLstripL_eq_self h1]

theorem rstrip_getLast_not_space {l : List Char} {c : Char}
    (h : (pyRstripL l).getLast? = some c) : isPySpace c = false := by
  unfold pyRstripL at h
  rw [List.getLast?_reverse] at h
  exact head?_dropWhile_not isPySpace _ h

theorem strip_head_not_space {l : List Char} {c : Char}
    (h : (pyStripL l).head? = some c) : isPySpace c = false :=
  head?_dropWhile_not isPySpace _ h

theorem strip_getLast_not_space {l : List Char} {c : Char}
    (h : (pyStripL l).getLast? = some c) : isPySpace c = false := by
  unfold pyStripL pyLstripL at h
  have hne : (pyRstripL l).dropWhile isPySpace ≠ [] := by
    intro he
    rw [he] at h
    cases h
  rw [getLast?_dropWhile isPySpace _ hne] at h
  exact rstrip_getLast_not_space h

theorem pyStripL_idem (l : List Char) : pyStripL (pyStripL l) = pyStripL l :=
  pyStripL_eq_self (fun _ h => strip_head_not_space h)
    (fun _ h => strip_getLast_not_space h)

theorem mem_dropWhile_of_not {p : Char → Bool} :
    ∀ {l : List Char} {x : Char}, x ∈ l → p x = false → x ∈ l.dropWhile p := by
  intro l
  induction l with
  | nil => intro x hx; cases hx
  | cons c t ih =>
    intro x hx hpx
    rw [List.dropWhile_cons]
    by_cases hp : p c = true
    · rw [if_pos hp]
      rcases List.mem_cons.mp hx with he | ht
      · subst he
        rw [hp] at hpx
        cases hpx
      · exact ih ht hpx
    · rw [if_neg hp]
      exact hx

theorem pyStripL_ne_nil {l : List Char} {c : Char}
    (hc : c ∈ l) (hcs : isPySpace c = false) : pyStripL l ≠ [] := by
  intro he
  unfold pyStripL pyLstripL at he
  rw [List.dropWhile_eq_nil_iff] at he
  have hmem : c ∈ pyRstripL l := by
    unfold pyRstripL
    rw [List.mem_reverse]
    exact mem_dropWhile_of_not (List.mem_reverse.mpr hc) hcs
  have := he c hmem
  rw [this] at hcs
  cases hcs

theorem findSubAux_isSome_parts (pat post : List Char) :
    ∀ (pre : List Char) (i : Nat),
      (findSubAux pat (pre ++ pat ++ post) i).isSome = true := by
  intro pre
  induction pre with
  | nil =>
    intro i
    unfold findSubAux
    rw [if_pos (List.isPrefixOf_iff_prefix.mpr ⟨post, by simp⟩)]
    rfl
  | cons c pre ih =>
    intro i
    unfold findSubAux
    by_cases hp : pat.isPrefixOf (c :: pre ++ pat ++ post) = true
    · rw [if_pos hp]
      rfl
    · rw [if_neg hp]
      simpa using ih (i + 1)

theorem containsSub_of_parts (pre pat post : List Char) :
    containsSubL (pre ++ pat ++ post) pat = true := by
  unfold containsSubL findSub
  exact findSubAux_isSome_parts pat post pre 0

theorem joinSep_head? (sep : List Char) (a : List Char) (r : List (List Char))
    (ha : a ≠ []) : (joinSep sep (a :: r)).head? = a.head? := by
  cases r with
  | nil => rfl
  | cons y rest =>
    show (a ++ sep ++ joinSep sep (y :: rest)).head? = a.head?
    rw [List.append_assoc, List.head?_append_of_ne_nil a ha]

theorem joinSep_getLast? (sep : List Char) :
    ∀ (ls : List (List Char)) (e : List Char), ls.getLast? = some e → e ≠ [] →
      (joinSep sep ls).getLast? = e.getLast? := by
  intro ls
  induction ls with
  | nil => intro e he; cases he
  | cons x rest ih =>
    intro e he hne
    cases rest with
    | nil =>
      cases he
      rfl
    | cons y rest2 =>
      rw [List.getLast?_cons_cons] at he
      show (x ++ sep ++ joinSep sep (y :: rest2)).getLast? = e.getLast?
      have hj := ih e he hne
      have hjne : joinSep sep (y :: rest2) ≠ [] := by
        intro hz
        rw [hz] at hj
        have : e.getLast?.isSome = true := by
          rw [List.getLast?_isSome]
          exact hne
        rw [← hj] at this
        cases this
      rw [List.getLast?_append_of_ne_nil _ hjne, hj]

theorem joinSep_parts (sep : List Char) :
    ∀ (ls : List (List Char)) (ln : List Char), ln ∈ ls →
      ∃ pre post, joinSep sep ls = pre ++ ln ++ post := by
  intro ls
  induction ls with
  | nil => intro ln h; cases h
  | cons x rest ih =>
    intro ln h
    rcases List.mem_cons.mp h with he | ht
    · subst he
      cases rest with
      | nil => exact ⟨[], [], by simp [joinSep]⟩
      | cons y rest2 =>
        refine ⟨[], sep ++ joinSep sep (y :: rest2), ?_⟩
        show ln ++ sep ++ joinSep sep (y :: rest2) = [] ++ ln ++ (sep ++ joinSep sep (y :: rest2))
        simp
    · cases rest with
      | nil => cases ht
      | cons y rest2 =>
        obtain ⟨pre, post, hp⟩ := ih ln ht
        refine ⟨x ++ sep ++ pre, post, ?_⟩
        show x ++ sep ++ joinSep sep (y :: rest2) = x ++ sep ++ pre ++ ln ++ post
        rw [hp]
        simp [List.append_assoc]

/-! ## Lemmas about the raw-block heuristic -/

theorem pyLines_mem {l : List Char} {x : List Char} (hx : x ∈ pyLines l) :
    x ≠ [] ∧ (∀ c, x.getLast? = some c → isPySpace c = false) := by
  unfold pyLines at hx
  rw [List.mem_map] at hx
  obtain ⟨y, hy, hxy⟩ := hx
  rw [List.mem_filter] at hy
  obtain ⟨_, hys⟩ := hy
  subst hxy
  constructor
  · intro he
    have : pyStripL y = [] := by
      unfold pyStripL
      rw [he]
      rfl
    rw [this] at hys
    simp at hys
  · intro c hc
    exact rstrip_getLast_not_space hc

theorem collectGo_false (l : List (List Char)) : collectGo false l = l := by
  induction l with
  | nil => rfl
  | cons ln rest ih =>
    unfold collectGo
    rw [Bool.and_false]
    simp only [Bool.false_eq_true, if_false]
    rw [ih]

theorem startCond_sw {all : List (List Char)} {i : Nat} {ln : List Char}
    (h : startCond all i ln = true) : "SW".data.isPrefixOf ln = true := by
  unfold startCond at h
  by_cases hs : "SW".data.isPrefixOf ln = true
  · exact hs
  · rw [Bool.not_eq_true] at hs
    rw [hs] at h
    simp at h

theorem findStartGo_spec (all : List (List Char)) :
    ∀ (suffix : List (List Char)) (i j : Nat), all.drop i = suffix →
      findStartGo all i suffix = some j →
      j < all.length ∧ startCond all j (all.getD j []) = true ∧ i ≤ j := by
  intro suffix
  induction suffix with
  | nil => intro i j _ h; cases h
  | cons ln rest ih =>
    intro i j hdrop h
    unfold findStartGo at h
    have hget : all[i]? = some ln := by
      have h0 : (all.drop i)[0]? = some ln := by rw [hdrop]; simp
      rw [List.getElem?_drop] at h0
      simpa using h0
    by_cases hc : startCond all i ln = true
    · rw [if_pos hc] at h
      cases h
      refine ⟨(List.getElem?_eq_some.mp hget).1, ?_, Nat.le_refl i⟩
      have : all.getD i [] = ln := by simp [List.getD_eq_getElem?_getD, hget]
      rw [this]
      exact hc
    · rw [if_neg hc] at h
      have hdrop2 : all.drop (i + 1) = rest := by
        have : (all.drop i).drop 1 = rest := by rw [hdrop]; rfl
        rw [List.drop_drop] at this
        simpa [Nat.add_comm] using this
      obtain ⟨h1, h2, h3⟩ := ih (i + 1) j hdrop2 h
      exact ⟨h1, h2, by omega⟩

/-- Claim C9: if the start heuristic fires at line `i` but the decode
heading does not occur in the join of the 120 non-blank lines from `i`,
the collection loop never breaks: the raw block equals the newline-join
of all non-blank lines from `i` to the end of the text, contains each of
those lines, and in particular is non-empty. -/
theorem C9_raw_collects_all (text : String) (i : Nat)
    (hstart : findStartGo (pyLines text.data) 0 (pyLines text.data) = some i)
    (hnodec : containsSubL
        (joinSep ['\n'] (((pyLines text.data).drop i).take 120))
        decodeHeading = false) :
    (extract_text_blocks text).2.1 =
      String.mk (joinSep ['\n'] ((pyLines text.data).drop i)) ∧
    (∀ ln ∈ (pyLines text.data).drop i,
      containsSubL (extract_text_blocks text).2.1.data ln = true) ∧
    (extract_text_blocks text).2.1 ≠ "" := by
  have hraw0 : (extract_text_blocks text).2.1 = String.mk (rawFrom (pyLines text.data) i) := by
    simp only [extract_text_blocks, hstart]
  have hspec := findStartGo_spec (pyLines text.data) (pyLines text.data) 0 i (by rfl) hstart
  obtain ⟨hilt, hcond, _⟩ := hspec
  set lines := pyLines text.data with hlines
  -- the first line of the tail
  have hdropc : lines.drop i = lines[i] :: lines.drop (i + 1) := List.drop_eq_getElem_cons hilt
  have hgetD : lines.getD i [] = lines[i] := List.getD_eq_getElem lines [] hilt
  have hsw : "SW".data.isPrefixOf lines[i] = true := by
    have := startCond_sw hcond
    rw [hgetD] at this
    exact this
  obtain ⟨trail, htrail⟩ := List.isPrefixOf_iff_prefix.mp hsw
  have hhead : (lines[i] : List Char).head? = some 'S' := by
    rw [← htrail]
    rfl
  have hmem0 : (lines[i] : List Char) ∈ lines := List.getElem_mem hilt
  -- the raw text before stripping
  have hjoin : rawFrom lines i = pyStripL (joinSep ['\n'] (lines.drop i)) := by
    unfold rawFrom
    rw [hnodec, collectGo_false]
  -- stripping is the identity on the join
  have hne0 : (lines[i] : List Char) ≠ [] := by
    intro hz
    rw [← htrail] at hz
    cases hz
  have hjhead : (joinSep ['\n'] (lines.drop i)).head? = some 'S' := by
    rw [hdropc]
    rw [joinSep_head? ['\n'] lines[i] (lines.drop (i + 1)) hne0]
    exact hhead
  have hlastE : ∃ e, (lines.drop i).getLast? = some e := by
    have : (lines.drop i) ≠ [] := by
      intro hz
      rw [hz] at hdropc
      simp at hdropc
      omega
    have hs : (lines.drop i).getLast?.isSome = true := by
      rw [List.getLast?_isSome]; exact this
    cases he : (lines.drop i).getLast? with
    | none => rw [he] at hs; cases hs
    | some e => exact ⟨e, rfl⟩
  obtain ⟨e, he⟩ := hlastE
  have hememd : e ∈ lines.drop i := List.mem_of_mem_getLast? he
  have hemem : e ∈ lines := List.mem_of_mem_drop hememd
  rw [hlines] at hemem
  obtain ⟨hene, helast⟩ := pyLines_mem hemem
  have hjlast : (joinSep ['\n'] (lines.drop i)).getLast? = e.getLast? :=
    joinSep_getLast? ['\n'] (lines.drop i) e he hene
  have hstripid : pyStripL (joinSep ['\n'] (lines.drop i)) =
      joinSep ['\n'] (lines.drop i) := by
    apply pyStripL_eq_self
    · intro c hc
      rw [hjhead] at hc
      cases hc
      decide
    · intro c hc
      rw [hjlast] at hc
      exact helast c hc
  have hraw : (extract_text_blocks text).2.1 =
      String.mk (joinSep ['\n'] (lines.drop i)) := by
    rw [hraw0, hjoin, hstripid]
  refine ⟨hraw, ?_, ?_⟩
  · intro ln hln
    obtain ⟨pre, post, hpp⟩ := joinSep_parts ['\n'] (lines.drop i) ln hln
    rw [hraw]
    show containsSubL (joinSep ['\n'] (lines.drop i)) ln = true
    rw [hpp]
    exact containsSub_of_parts pre ln post
  · rw [hraw]
    intro hc
    have hnil : joinSep ['\n'] (lines.drop i) = [] := by
      simpa using congrArg String.data hc
    rw [hnil] at hjhead
    cases hjhead

/-- Witness for C9: a two-line report with no decode heading anywhere;
the raw block keeps both lines even though none ends in a parenthesis. -/
theorem C9_raw_collects_all_witness :
    findStartGo (pyLines ("SWLH0012 LHBP 01090622\nMOTNE" : String).data) 0
      (pyLines ("SWLH0012 LHBP 01090622\nMOTNE" : String).data) = some 0 ∧
    (extract_text_blocks "SWLH0012 LHBP 01090622\nMOTNE").2.1 =
      "SWLH0012 LHBP 01090622\nMOTNE" ∧
    (extract_text_blocks "SWLH0012 LHBP 01090622\nMOTNE").2.1 ≠ "" := by
  have h := C9_raw_collects_all "SWLH0012 LHBP 01090622\nMOTNE" 0 (by decide) (by decide)
  refine ⟨by decide, ?_, h.2.2⟩
  rw [h.1]
  decide

/-! ## Lemmas about the received-timestamp capture -/

theorem not_space_of_isDig {c : Char} (h : isDig c = true) : isPySpace c = false := by
  simp only [isDig, Bool.and_eq_true, decide_eq_true_eq] at h
  simp only [isPySpace, Bool.or_eq_false_iff, decide_eq_false_iff_not]
  omega

theorem take4dCh_isDig {l : List Char} {a b c d : Char} {r : List Char}
    (h : take4dCh l = some (a, b, c, d, r)) : isDig a = true := by
  match l with
  | [] => cases h
  | [_] => cases h
  | [_, _] => cases h
  | [_, _, _] => cases h
  | x1 :: x2 :: x3 :: x4 :: rest =>
    simp only [take4dCh] at h
    split at h
    · rename_i hd
      cases h
      simp only [Bool.and_eq_true] at hd
      exact hd.1.1.1
    · cases h

theorem matchReceivedAt_strip {l cap : List Char}
    (h : matchReceivedAt l = some cap) : pyStripL cap = cap := by
  unfold matchReceivedAt at h
  rw [Option.bind_eq_some] at h
  obtain ⟨l0, _, h⟩ := h
  rw [Option.bind_eq_some] at h
  obtain ⟨⟨y1, y2, y3, y4, l1⟩, h4d, h⟩ := h
  rw [Option.bind_eq_some] at h
  obtain ⟨l2, _, h⟩ := h
  rw [Option.bind_eq_some] at h
  obtain ⟨⟨m1, m2, l3⟩, _, h⟩ := h
  rw [Option.bind_eq_some] at h
  obtain ⟨l4, _, h⟩ := h
  rw [Option.bind_eq_some] at h
  obtain ⟨⟨d1, d2, l5⟩, _, h⟩ := h
  rw [Option.bind_eq_some] at h
  obtain ⟨⟨w1, l6⟩, _, h⟩ := h
  rw [Option.bind_eq_some] at h
  obtain ⟨⟨h1c, h2c, l7⟩, _, h⟩ := h
  rw [Option.bind_eq_some] at h
  obtain ⟨l8, _, h⟩ := h
  rw [Option.bind_eq_some] at h
  obtain ⟨⟨n1, n2, l9⟩, _, h⟩ := h
  rw [Option.bind_eq_some] at h
  obtain ⟨⟨w2, l10⟩, _, h⟩ := h
  rw [Option.bind_eq_some] at h
  obtain ⟨l11, _, h⟩ := h
  cases h
  apply pyStripL_eq_self
  · intro c hc
    simp only [List.cons_append, List.head?_cons, Option.some.injEq] at hc
    subst hc
    exact not_space_of_isDig (take4dCh_isDig h4d)
  · intro c hc
    rw [List.getLast?_append_of_ne_nil _ (by simp)] at hc
    simp only [List.getLast?_cons_cons, List.getLast?_singleton, Option.some.injEq] at hc
    subst hc
    decide

theorem searchReceivedGo_some :
    ∀ {l cap : List Char}, searchReceivedGo l = some cap →
      ∃ t, matchReceivedAt t = some cap := by
  intro l
  induction l with
  | nil => intro cap h; cases h
  | cons c rest ih =>
    intro cap h
    unfold searchReceivedGo at h
    cases hm : matchReceivedAt (c :: rest) with
    | some cap2 =>
      rw [hm] at h
      cases h
      exact ⟨c :: rest, hm⟩
    | none =>
      rw [hm] at h
      exact ih h

theorem sliceBetween_strip (l hd nxt : List Char) :
    pyStripL (sliceBetween l hd nxt) = sliceBetween l hd nxt := by
  unfold sliceBetween
  cases hf : findSub l hd with
  | none => rfl
  | some a => exact pyStripL_idem _

theorem pyStrip_mk (x : List Char) : pyStrip (String.mk x) = String.mk (pyStripL x) := rfl

/-- Claim C7: on every input text the extractor returns a 4-tuple of
strings (totality is inherent to the embedding — every scan is a total
function); a field whose pattern is absent is the empty string, never an
absent value; and all four returned strings equal their own trimmed
forms. -/
theorem C7_extract_total_trimmed (text : String) :
    (pyStrip (extract_text_blocks text).1 = (extract_text_blocks text).1 ∧
     pyStrip (extract_text_blocks text).2.1 = (extract_text_blocks text).2.1 ∧
     pyStrip (extract_text_blocks text).2.2.1 = (extract_text_blocks text).2.2.1 ∧
     pyStrip (extract_text_blocks text).2.2.2 = (extract_text_blocks text).2.2.2) ∧
    ((searchReceivedGo text.data = none → (extract_text_blocks text).1 = "") ∧
     (findStartGo (pyLines text.data) 0 (pyLines text.data) = none →
        (extract_text_blocks text).2.1 = "") ∧
     (findSub text.data decodeHeading = none →
        (extract_text_blocks text).2.2.1 = "") ∧
     (findSub text.data decodeHeading2 = none →
        (extract_text_blocks text).2.2.2 = "")) := by
  refine ⟨⟨?_, ?_, ?_, ?_⟩, ?_, ?_, ?_, ?_⟩
  · cases hr : searchReceivedGo text.data with
    | none =>
      have : (extract_text_blocks text).1 = "" := by
        simp only [extract_text_blocks, hr]
        rfl
      rw [this]
      decide
    | some cap =>
      have : (extract_text_blocks text).1 = String.mk cap := by
        simp only [extract_text_blocks, hr]
        rfl
      rw [this, pyStrip_mk]
      obtain ⟨t, ht⟩ := searchReceivedGo_some hr
      rw [matchReceivedAt_strip ht]
  · cases hs : findStartGo (pyLines text.data) 0 (pyLines text.data) with
    | none =>
      have : (extract_text_blocks text).2.1 = "" := by
        simp only [extract_text_blocks, hs]
      rw [this]
      decide
    | some i =>
      have : (extract_text_blocks text).2.1 = String.mk (rawFrom (pyLines text.data) i) := by
        simp only [extract_text_blocks, hs]
      rw [this, pyStrip_mk]
      unfold rawFrom
      rw [pyStripL_idem]
  · have : (extract_text_blocks text).2.2.1 =
        String.mk (sliceBetween text.data decodeHeading decodeHeading2) := by
      simp only [extract_text_blocks]
    rw [this, pyStrip_mk, sliceBetween_strip]
  · have : (extract_text_blocks text).2.2.2 =
        String.mk (sliceBetween text.data decodeHeading2 selectVoice) := by
      simp only [extract_text_blocks]
    rw [this, pyStrip_mk, sliceBetween_strip]
  · intro hr
    simp only [extract_text_blocks, hr]
    rfl
  · intro hs
    simp only [extract_text_blocks, hs]
  · intro hd
    simp only [extract_text_blocks, sliceBetween, hd]
  · intro hd
    simp only [extract_text_blocks, sliceBetween, hd]

/-- Witness for C7 on a text with no matching pattern at all. -/
theorem C7_extract_total_trimmed_witness :
    pyStrip (extract_text_blocks "plain junk").1 = (extract_text_blocks "plain junk").1 ∧
    (extract_text_blocks "plain junk").2.2.1 = "" := by
  have h := C7_extract_total_trimmed "plain junk"
  exact ⟨h.1.1, h.2.2.2.1 (by decide)⟩

/-- Claim C5 (as stated) is false: on a document that contains both decode
headings back to back, the text strictly between them is a single newline,
so the returned `decodeBlock` is empty, not non-empty. -/
theorem C5_counterexample :
    containsSubL ("UNOFFICIAL PLAIN LANGUAGE DECODE\nUNOFFICIAL PLAIN LANGUAGE DECODE OPPOSITE DIRECTION\nX\nSelect voice:" : String).data decodeHeading = true ∧
    containsSubL ("UNOFFICIAL PLAIN LANGUAGE DECODE\nUNOFFICIAL PLAIN LANGUAGE DECODE OPPOSITE DIRECTION\nX\nSelect voice:" : String).data decodeHeading2 = true ∧
    (extract_text_blocks "UNOFFICIAL PLAIN LANGUAGE DECODE\nUNOFFICIAL PLAIN LANGUAGE DECODE OPPOSITE DIRECTION\nX\nSelect voice:").2.2.1 = "" ∧
    (extract_text_blocks "UNOFFICIAL PLAIN LANGUAGE DECODE\nUNOFFICIAL PLAIN LANGUAGE DECODE OPPOSITE DIRECTION\nX\nSelect voice:").2.2.2 = "X" := by
  refine ⟨by decide, by decide, ?_, ?_⟩
  · decide
  · decide

/-- Claim C5, amended: when the first heading is found at position `a`,
`decodeBlock` is the whitespace-trimmed text between the end of that
heading and the first occurrence of the second heading after it (end of
text when absent) — possibly empty when that gap is whitespace-only, and
non-empty as soon as the gap holds any non-whitespace character; the
`decodeOppositeBlock` is obtained the same way from the second heading
and `Select voice:`; a missing heading yields the empty string. -/
theorem C5_decode_slices (text : String) :
    ((findSub text.data decodeHeading = none →
        (extract_text_blocks text).2.2.1 = "") ∧
     (findSub text.data decodeHeading2 = none →
        (extract_text_blocks text).2.2.2 = "")) ∧
    (∀ a, findSub text.data decodeHeading = some a →
       (extract_text_blocks text).2.2.1 =
         String.mk (pyStripL ((text.data.take
             ((findSubFrom text.data decodeHeading2 (a + decodeHeading.length)).getD
               text.data.length)).drop (a + decodeHeading.length))) ∧
       (∀ c, c ∈ (text.data.take
             ((findSubFrom text.data decodeHeading2 (a + decodeHeading.length)).getD
               text.data.length)).drop (a + decodeHeading.length) →
          isPySpace c = false → (extract_text_blocks text).2.2.1 ≠ "")) ∧
    (∀ a, findSub text.data decodeHeading2 = some a →
       (extract_text_blocks text).2.2.2 =
         String.mk (pyStripL ((text.data.take
             ((findSubFrom text.data selectVoice (a + decodeHeading2.length)).getD
               text.data.length)).drop (a + decodeHeading2.length))) ∧
       (∀ c, c ∈ (text.data.take
             ((findSubFrom text.data selectVoice (a + decodeHeading2.length)).getD
               text.data.length)).drop (a + decodeHeading2.length) →
          isPySpace c = false → (extract_text_blocks text).2.2.2 ≠ "")) := by
  have hdec : (extract_text_blocks text).2.2.1 =
      String.mk (sliceBetween text.data decodeHeading decodeHeading2) := by
    simp only [extract_text_blocks]
  have hdec2 : (extract_text_blocks text).2.2.2 =
      String.mk (sliceBetween text.data decodeHeading2 selectVoice) := by
    simp only [extract_text_blocks]
  refine ⟨⟨?_, ?_⟩, ?_, ?_⟩
  · intro h
    rw [hdec]
    unfold sliceBetween
    rw [h]
  · intro h
    rw [hdec2]
    unfold sliceBetween
    rw [h]
  · intro a ha
    have hs : sliceBetween text.data decodeHeading decodeHeading2 =
        pyStripL ((text.data.take
            ((findSubFrom text.data decodeHeading2 (a + decodeHeading.length)).getD
              text.data.length)).drop (a + decodeHeading.length)) := by
      unfold sliceBetween
      rw [ha]
    refine ⟨by rw [hdec, hs], ?_⟩
    intro c hc hcs hz
    rw [hdec, hs] at hz
    have : pyStripL ((text.data.take
        ((findSubFrom text.data decodeHeading2 (a + decodeHeading.length)).getD
          text.data.length)).drop (a + decodeHeading.length)) = [] := by
      simpa using congrArg String.data hz
    exact pyStripL_ne_nil hc hcs this
  · intro a ha
    have hs : sliceBetween text.data decodeHeading2 selectVoice =
        pyStripL ((text.data.take
            ((findSubFrom text.data selectVoice (a + decodeHeading2.length)).getD
              text.data.length)).drop (a + decodeHeading2.length)) := by
      unfold sliceBetween
      rw [ha]
    refine ⟨by rw [hdec2, hs], ?_⟩
    intro c hc hcs hz
    rw [hdec2, hs] at hz
    have : pyStripL ((text.data.take
        ((findSubFrom text.data selectVoice (a + decodeHeading2.length)).getD
          text.data.length)).drop (a + decodeHeading2.length)) = [] := by
      simpa using congrArg String.data hz
    exact pyStripL_ne_nil hc hcs this

/-- Witness for C5 (amended) on a document whose decode gaps are
non-trivial. -/
theorem C5_decode_slices_witness :
    findSub ("UNOFFICIAL PLAIN LANGUAGE DECODE\nRWY 13R\nUNOFFICIAL PLAIN LANGUAGE DECODE OPPOSITE DIRECTION\nRWY 31L\nSelect voice:\nx" : String).data decodeHeading = some 0 ∧
    (extract_text_blocks "UNOFFICIAL PLAIN LANGUAGE DECODE\nRWY 13R\nUNOFFICIAL PLAIN LANGUAGE DECODE OPPOSITE DIRECTION\nRWY 31L\nSelect voice:\nx").2.2.1 = "RWY 13R" ∧
    (extract_text_blocks "UNOFFICIAL PLAIN LANGUAGE DECODE\nRWY 13R\nUNOFFICIAL PLAIN LANGUAGE DECODE OPPOSITE DIRECTION\nRWY 31L\nSelect voice:\nx").2.2.1 ≠ "" := by
  have h := (C5_decode_slices "UNOFFICIAL PLAIN LANGUAGE DECODE\nRWY 13R\nUNOFFICIAL PLAIN LANGUAGE DECODE OPPOSITE DIRECTION\nRWY 31L\nSelect voice:\nx").2.1 0 (by decide)
  refine ⟨by decide, ?_, ?_⟩
  · rw [h.1]
    decide
  · exact h.2 'R' (by decide) (by decide)

/-! ## The timestamp parser `received_to_iso`

CPython's `strptime` compiles `"%Y-%m-%d %H:%M UTC"` to the regex
`(?P<Y>\d{4})-(?P<m>1[0-2]|0[1-9]|[1-9])-(?P<d>3[01]|[12]\d|0[1-9]|[1-9])\s+(?P<H>2[0-3]|[0-1]\d|\d):(?P<M>[0-5]\d|\d)\s+UTC`
compiled with `IGNORECASE`, requires it to consume the whole input, and
then validates the fields by constructing a `datetime` （year 1–9999,
day within the month).  The two-digit alternatives are embedded with
committed choice: whenever a two-digit alternative matches, the one-digit
alternative would leave a digit where the following literal or `\s+`
must match, so it can never rescue a failed continuation — ordered
backtracking and committed choice coincide for this format. -/

/-- Regex `[0-9]{2}` as a number. -/
def take2d : List Char → Option (Nat × List Char)
  | a :: b :: rest =>
    if isDig a && isDig b then some (10 * digitVal a + digitVal b, rest) else none
  | _ => none

/-- Regex `[0-9]{4}` (strptime `%Y`) as a number. -/
def take4d : List Char → Option (Nat × List Char)
  | a :: b :: c :: d :: rest =>
    if isDig a && isDig b && isDig c && isDig d then
      some (1000 * digitVal a + 100 * digitVal b + 10 * digitVal c + digitVal d, rest)
    else none
  | _ => none

/-- Regex `1[0-2]|0[1-9]` (the two-digit alternatives of `%m`). -/
def parse2Month : List Char → Option (Nat × List Char)
  | a :: b :: rest =>
    if a.toNat = 49 ∧ 48 ≤ b.toNat ∧ b.toNat ≤ 50 then some (10 + digitVal b, rest)
    else if a.toNat = 48 ∧ 49 ≤ b.toNat ∧ b.toNat ≤ 57 then some (digitVal b, rest)
    else none
  | _ => none

/-- Regex `[1-9]`. -/
def parse1Digit19 : List Char → Option (Nat × List Char)
  | a :: rest =>
    if 49 ≤ a.toNat ∧ a.toNat ≤ 57 then some (digitVal a, rest) else none
  | [] => none

/-- Regex `\d`. -/
def parse1AnyDigit : List Char → Option (Nat × List Char)
  | a :: rest => if isDig a then some (digitVal a, rest) else none
  | [] => none

/-- strptime `%m`: `1[0-2]|0[1-9]|[1-9]` with committed choice. -/
def parseMonthF (l : List Char) : Option (Nat × List Char) :=
  match parse2Month l with
  | some r => some r
  | none => parse1Digit19 l

/-- Regex `3[01]|[12]\d|0[1-9]` (the two-digit alternatives of `%d`). -/
def parse2Day : List Char → Option (Nat × List Char)
  | a :: b :: rest =>
    if a.toNat = 51 ∧ 48 ≤ b.toNat ∧ b.toNat ≤ 49 then some (30 + digitVal b, rest)
    else if 49 ≤ a.toNat ∧ a.toNat ≤ 50 ∧ 48 ≤ b.toNat ∧ b.toNat ≤ 57 then
      some (10 * digitVal a + digitVal b, rest)
    else if a.toNat = 48 ∧ 49 ≤ b.toNat ∧ b.toNat ≤ 57 then some (digitVal b, rest)
    else none
  | _ => none

/-- strptime `%d`: `3[01]|[12]\d|0[1-9]|[1-9]` with committed choice. -/
def parseDayF (l : List Char) : Option (Nat × List Char) :=
  match parse2Day l with
  | some r => some r
  | none => parse1Digit19 l

/-- Regex `2[0-3]|[0-1]\d` (the two-digit alternatives of `%H`). -/
def parse2Hour : List Char → Option (Nat × List Char)
  | a :: b :: rest =>
    if a.toNat = 50 ∧ 48 ≤ b.toNat ∧ b.toNat ≤ 51 then some (20 + digitVal b, rest)
    else if 48 ≤ a.toNat ∧ a.toNat ≤ 49 ∧ 48 ≤ b.toNat ∧ b.toNat ≤ 57 then
      some (10 * digitVal a + digitVal b, rest)
    else none
  | _ => none

/-- strptime `%H`: `2[0-3]|[0-1]\d|\d` with committed choice. -/
def parseHourF (l : List Char) : Option (Nat × List Char) :=
  match parse2Hour l with
  | some r => some r
  | none => parse1AnyDigit l

/-- Regex `[0-5]\d` (the two-digit alternative of `%M`). -/
def parse2Min : List Char → Option (Nat × List Char)
  | a :: b :: rest =>
    if 48 ≤ a.toNat ∧ a.toNat ≤ 53 ∧ 48 ≤ b.toNat ∧ b.toNat ≤ 57 then
      some (10 * digitVal a + digitVal b, rest)
    else none
  | _ => none

/-- strptime `%M`: `[0-5]\d|\d` with committed choice. -/
def parseMinF (l : List Char) : Option (Nat × List Char) :=
  match parse2Min l with
  | some r => some r
  | none => parse1AnyDigit l

/-- The literal `UTC` under `IGNORECASE`, with nothing allowed after it
(strptime rejects unconverted trailing data). -/
def parseUTCEnd : List Char → Bool
  | [u, t, c] =>
    (u = 'U' || u = 'u') && (t = 'T' || t = 't') && (c = 'C' || c = 'c')
  | _ => false

/-- The regex phase of
`datetime.strptime(received_text, "%Y-%m-%d %H:%M UTC")`. -/
def strptimeYmdHM (s : String) : Option (Nat × Nat × Nat × Nat × Nat) :=
  (take4d s.data).bind fun (y, l1) =>
  (expectCh '-' l1).bind fun l2 =>
  (parseMonthF l2).bind fun (m, l3) =>
  (expectCh '-' l3).bind fun l4 =>
  (parseDayF l4).bind fun (d, l5) =>
  (wsPlus1 l5).bind fun l6 =>
  (parseHourF l6).bind fun (h, l7) =>
  (expectCh ':' l7).bind fun l8 =>
  (parseMinF l8).bind fun (mi, l9) =>
  (wsPlus1 l9).bind fun l10 =>
  if parseUTCEnd l10 then some (y, m, d, h, mi) else none

/-- Gregorian leap year, as computed by `datetime`. -/
def isLeap (y : Nat) : Bool := y % 4 = 0 && (y % 100 ≠ 0 || y % 400 = 0)

/-- Days in a month, as computed by `datetime`. -/
def daysInMonth (y m : Nat) : Nat :=
  if m = 2 then (if isLeap y then 29 else 28)
  else if m = 4 ∨ m = 6 ∨ m = 9 ∨ m = 11 then 30
  else 31

/-- The field validation performed by the `datetime` constructor (hour
and minute are already bounded by the regex; they are re-checked here as
`datetime` does). -/
def validDate (y m d h mi : Nat) : Bool :=
  1 ≤ y && y ≤ 9999 && 1 ≤ m && m ≤ 12 && 1 ≤ d && d ≤ daysInMonth y m &&
  h ≤ 23 && mi ≤ 59

/-- Zero-padding to two digits. -/
def pad2 (n : Nat) : String := if n < 10 then "0" ++ toString n else toString n

/-- Zero-padding to four digits. -/
def pad4 (n : Nat) : String :=
  if n < 10 then "000" ++ toString n
  else if n < 100 then "00" ++ toString n
  else if n < 1000 then "0" ++ toString n
  else toString n

/-- `dt.isoformat().replace("+00:00", "Z")` for a whole-minute UTC
datetime. -/
def isoZ (y m d h mi : Nat) : String :=
  pad4 y ++ "-" ++ pad2 m ++ "-" ++ pad2 d ++ "T" ++ pad2 h ++ ":" ++ pad2 mi ++ ":00Z"

/-- Embedding of `received_to_iso`: empty input and any strptime failure
(regex mismatch or invalid calendar field) give `none`. -/
def received_to_iso (s : String) : Option String :=
  if s = "" then none
  else
    match strptimeYmdHM s with
    | none => none
    | some (y, m, d, h, mi) =>
      if validDate y m d h mi then some (isoZ y m d h mi) else none

/-- Modelled from the spec: the textual format `YYYY-MM-DD HH:MM UTC`
read literally (four-digit year, two-digit month, day, hour and minute,
single spaces, uppercase `UTC`, nothing else), returning the five
numeric fields.  This is the second, spec-side definition against which
`received_to_iso` is compared. -/
def specReceivedFormat (s : String) : Option (Nat × Nat × Nat × Nat × Nat) :=
  (take4d s.data).bind fun (y, l1) =>
  (expectCh '-' l1).bind fun l2 =>
  (take2d l2).bind fun (m, l3) =>
  (expectCh '-' l3).bind fun l4 =>
  (take2d l4).bind fun (d, l5) =>
  (expectCh ' ' l5).bind fun l6 =>
  (take2d l6).bind fun (h, l7) =>
  (expectCh ':' l7).bind fun l8 =>
  (take2d l8).bind fun (mi, l9) =>
  (expectCh ' ' l9).bind fun l10 =>
  (dropLit "UTC".data l10).bind fun l11 =>
  if l11 = [] then some (y, m, d, h, mi) else none

/-! ## Lemmas relating the strict format to the strptime parser -/

theorem isDig_bounds {c : Char} (h : isDig c = true) :
    48 ≤ c.toNat ∧ c.toNat ≤ 57 := by
  simp only [isDig, Bool.and_eq_true, decide_eq_true_eq] at h
  exact h

theorem take2d_inv {l : List Char} {v : Nat} {r : List Char}
    (h : take2d l = some (v, r)) :
    ∃ a b, l = a :: b :: r ∧ 48 ≤ a.toNat ∧ a.toNat ≤ 57 ∧
      48 ≤ b.toNat ∧ b.toNat ≤ 57 ∧
      v = 10 * (a.toNat - 48) + (b.toNat - 48) := by
  match l with
  | [] => cases h
  | [_] => cases h
  | a :: b :: rest =>
    simp only [take2d] at h
    split at h
    · rename_i hd
      simp only [Bool.and_eq_true] at hd
      obtain ⟨ha, hb⟩ := hd
      obtain ⟨ha1, ha2⟩ := isDig_bounds ha
      obtain ⟨hb1, hb2⟩ := isDig_bounds hb
      cases h
      exact ⟨a, b, rfl, ha1, ha2, hb1, hb2, rfl⟩
    · cases h

theorem take4d_le {l : List Char} {v : Nat} {r : List Char}
    (h : take4d l = some (v, r)) : v ≤ 9999 := by
  match l with
  | [] => cases h
  | [_] => cases h
  | [_, _] => cases h
  | [_, _, _] => cases h
  | a :: b :: c :: d :: rest =>
    simp only [take4d] at h
    split at h
    · rename_i hd
      simp only [Bool.and_eq_true] at hd
      obtain ⟨⟨⟨ha, hb⟩, hc⟩, hd4⟩ := hd
      obtain ⟨ha1, ha2⟩ := isDig_bounds ha
      obtain ⟨hb1, hb2⟩ := isDig_bounds hb
      obtain ⟨hc1, hc2⟩ := isDig_bounds hc
      obtain ⟨hd1, hd2⟩ := isDig_bounds hd4
      cases h
      simp only [digitVal]
      omega
    · cases h

theorem expectCh_inv {ch : Char} {l r : List Char}
    (h : expectCh ch l = some r) : l = ch :: r := by
  match l with
  | [] => cases h
  | c :: rest =>
    simp only [expectCh] at h
    split at h
    · rename_i hc
      cases h
      rw [hc]
    · cases h

theorem dropLit_inv {lit l r : List Char} (h : dropLit lit l = some r) :
    l = lit ++ r := by
  unfold dropLit at h
  split at h
  · rename_i hp
    obtain ⟨t, ht⟩ := List.isPrefixOf_iff_prefix.mp hp
    cases h
    rw [← ht, List.drop_left]
  · cases h

theorem dropWhile_of_take2d {l : List Char} {v : Nat} {r : List Char}
    (h : take2d l = some (v, r)) : l.dropWhile isPySpace = l := by
  obtain ⟨a, b, hl, ha1, ha2, _⟩ := take2d_inv h
  subst hl
  rw [List.dropWhile_cons]
  have : isPySpace a = false := by
    simp only [isPySpace, Bool.or_eq_false_iff, decide_eq_false_iff_not]
    omega
  rw [this]
  simp

theorem parseMonthF_of_take2d {l : List Char} {v : Nat} {r : List Char}
    (h : take2d l = some (v, r)) (h1 : 1 ≤ v) (h2 : v ≤ 12) :
    parseMonthF l = some (v, r) := by
  obtain ⟨a, b, hl, ha1, ha2, hb1, hb2, hv⟩ := take2d_inv h
  subst hl
  simp only [parseMonthF, parse2Month]
  by_cases hc : a.toNat = 49
  · rw [if_pos ⟨hc, hb1, by omega⟩]
    show some (10 + digitVal b, r) = some (v, r)
    have he : 10 + digitVal b = v := by
      simp only [digitVal]
      omega
    rw [he]
  · have ha48 : a.toNat = 48 := by omega
    rw [if_neg (by omega), if_pos ⟨ha48, by omega, hb2⟩]
    show some (digitVal b, r) = some (v, r)
    have he : digitVal b = v := by
      simp only [digitVal]
      omega
    rw [he]

theorem parseDayF_of_take2d {l : List Char} {v : Nat} {r : List Char}
    (h : take2d l = some (v, r)) (h1 : 1 ≤ v) (h2 : v ≤ 31) :
    parseDayF l = some (v, r) := by
  obtain ⟨a, b, hl, ha1, ha2, hb1, hb2, hv⟩ := take2d_inv h
  subst hl
  simp only [parseDayF, parse2Day]
  by_cases h51 : a.toNat = 51
  · rw [if_pos ⟨h51, hb1, by omega⟩]
    show some (30 + digitVal b, r) = some (v, r)
    have he : 30 + digitVal b = v := by
      simp only [digitVal]
      omega
    rw [he]
  · by_cases h12 : 49 ≤ a.toNat ∧ a.toNat ≤ 50
    · rw [if_neg (by omega), if_pos ⟨h12.1, h12.2, hb1, hb2⟩]
      show some (10 * digitVal a + digitVal b, r) = some (v, r)
      have he : 10 * digitVal a + digitVal b = v := by
        simp only [digitVal]
        omega
      rw [he]
    · have ha48 : a.toNat = 48 := by omega
      rw [if_neg (by omega), if_neg (by omega), if_pos ⟨ha48, by omega, hb2⟩]
      show some (digitVal b, r) = some (v, r)
      have he : digitVal b = v := by
        simp only [digitVal]
        omega
      rw [he]

theorem parseHourF_of_take2d {l : List Char} {v : Nat} {r : List Char}
    (h : take2d l = some (v, r)) (h2 : v ≤ 23) :
    parseHourF l = some (v, r) := by
  obtain ⟨a, b, hl, ha1, ha2, hb1, hb2, hv⟩ := take2d_inv h
  subst hl
  simp only [parseHourF, parse2Hour]
  by_cases h50 : a.toNat = 50
  · rw [if_pos ⟨h50, hb1, by omega⟩]
    show some (20 + digitVal b, r) = some (v, r)
    have he : 20 + digitVal b = v := by
      simp only [digitVal]
      omega
    rw [he]
  · have h01 : a.toNat ≤ 49 := by omega
    rw [if_neg (by omega), if_pos ⟨ha1, h01, hb1, hb2⟩]
    show some (10 * digitVal a + digitVal b, r) = some (v, r)
    have he : 10 * digitVal a + digitVal b = v := by
      simp only [digitVal]
      omega
    rw [he]

theorem parseMinF_of_take2d {l : List Char} {v : Nat} {r : List Char}
    (h : take2d l = some (v, r)) (h2 : v ≤ 59) :
    parseMinF l = some (v, r) := by
  obtain ⟨a, b, hl, ha1, ha2, hb1, hb2, hv⟩ := take2d_inv h
  subst hl
  simp only [parseMinF, parse2Min]
  rw [if_pos ⟨ha1, by omega, hb1, hb2⟩]
  show some (10 * digitVal a + digitVal b, r) = some (v, r)
  have he : 10 * digitVal a + digitVal b = v := by
    simp only [digitVal]
    omega
  rw [he]

theorem daysInMonth_le (y m : Nat) : daysInMonth y m ≤ 31 := by
  unfold daysInMonth
  split
  · split
    · omega
    · omega
  · split
    · omega
    · omega

/-- Claim C6 (as stated) is false in both directions:
`"2026-02-30 10:00 UTC"` matches the textual format `YYYY-MM-DD HH:MM UTC`
yet the helper returns absence (day 30 does not exist in February), and
`"2026-1-9 6:32 UTC"` does not match the textual format yet the helper
returns a timestamp (strptime accepts single-digit fields). -/
theorem C6_counterexample :
    (specReceivedFormat "2026-02-30 10:00 UTC").isSome = true ∧
    received_to_iso "2026-02-30 10:00 UTC" = none ∧
    (specReceivedFormat "2026-1-9 6:32 UTC").isSome = false ∧
    received_to_iso "2026-1-9 6:32 UTC" = some "2026-01-09T06:32:00Z" := by
  refine ⟨by decide, by decide, by decide, by decide⟩

/-- Claim C6, amended: the helper never raises (it is a total function);
it returns the Z-suffixed UTC ISO timestamp for every input matching the
textual format `YYYY-MM-DD HH:MM UTC` whose fields form a valid calendar
date-time (year at least 1, month 1–12, day within the month, hour at
most 23, minute at most 59); inputs matching the textual format with
invalid calendar fields return absence, as do the empty string and
strings with missing minutes; strptime's tolerances additionally accept
some inputs outside the strict textual format (single-digit fields,
whitespace runs, lowercase `utc`). -/
theorem C6_received_iso (s : String) (y m d h mi : Nat)
    (hp : specReceivedFormat s = some (y, m, d, h, mi))
    (hy : 1 ≤ y) (hm1 : 1 ≤ m) (hm2 : m ≤ 12) (hd1 : 1 ≤ d)
    (hd2 : d ≤ daysInMonth y m) (hh : h ≤ 23) (hmi : mi ≤ 59) :
    received_to_iso s = some (isoZ y m d h mi) := by
  unfold specReceivedFormat at hp
  rw [Option.bind_eq_some] at hp
  obtain ⟨⟨y0, l1⟩, hty, hp⟩ := hp
  rw [Option.bind_eq_some] at hp
  obtain ⟨l2, hec1, hp⟩ := hp
  rw [Option.bind_eq_some] at hp
  obtain ⟨⟨m0, l3⟩, htm, hp⟩ := hp
  rw [Option.bind_eq_some] at hp
  obtain ⟨l4, hec2, hp⟩ := hp
  rw [Option.bind_eq_some] at hp
  obtain ⟨⟨d0, l5⟩, htd, hp⟩ := hp
  rw [Option.bind_eq_some] at hp
  obtain ⟨l6, hec3, hp⟩ := hp
  rw [Option.bind_eq_some] at hp
  obtain ⟨⟨h0, l7⟩, hth, hp⟩ := hp
  rw [Option.bind_eq_some] at hp
  obtain ⟨l8, hec4, hp⟩ := hp
  rw [Option.bind_eq_some] at hp
  obtain ⟨⟨mi0, l9⟩, htmi, hp⟩ := hp
  rw [Option.bind_eq_some] at hp
  obtain ⟨l10, hec5, hp⟩ := hp
  rw [Option.bind_eq_some] at hp
  obtain ⟨l11, hlit, hp⟩ := hp
  split at hp
  · rename_i hl11
    simp only [Option.some.injEq, Prod.mk.injEq] at hp
    obtain ⟨hpy, hpm, hpd, hph, hpmi⟩ := hp
    subst hpy hpm hpd hph hpmi
    subst hl11
    -- strict-format facts about the tail lists
    have hl5 : l5 = ' ' :: l6 := expectCh_inv hec3
    have hl9 : l9 = ' ' :: l10 := expectCh_inv hec5
    have hl10 : l10 = ['U', 'T', 'C'] := by
      have := dropLit_inv hlit
      simpa using this
    -- the helper's input is non-empty
    have hsne : s ≠ "" := by
      intro hz
      rw [hz] at hty
      have hnil : take4d ("" : String).data = none := by decide
      rw [hnil] at hty
      cases hty
    -- the strptime regex accepts the input with the same fields
    have hws1 : wsPlus1 l5 = some l6 := by
      rw [hl5]
      simp only [wsPlus1]
      rw [if_pos (by decide : isPySpace ' ' = true)]
      rw [dropWhile_of_take2d hth]
    have hws2 : wsPlus1 l9 = some l10 := by
      rw [hl9, hl10]
      simp only [wsPlus1]
      rw [if_pos (by decide : isPySpace ' ' = true)]
      rfl
    have hpm := parseMonthF_of_take2d htm hm1 hm2
    have hpd := parseDayF_of_take2d htd hd1 (le_trans hd2 (daysInMonth_le y0 m0))
    have hph := parseHourF_of_take2d hth hh
    have hpmi := parseMinF_of_take2d htmi hmi
    have hstp : strptimeYmdHM s = some (y0, m0, d0, h0, mi0) := by
      simp only [strptimeYmdHM, hty, Option.some_bind, hec1, hpm, hec2, hpd,
        hws1, hph, hec4, hpmi, hws2, hl10]
      rw [if_pos (by decide : parseUTCEnd ['U', 'T', 'C'] = true)]
    -- the datetime constructor accepts the fields
    have hy4 : y0 ≤ 9999 := take4d_le hty
    have hvalid : validDate y0 m0 d0 h0 mi0 = true := by
      simp only [validDate, Bool.and_eq_true, decide_eq_true_eq]
      refine ⟨⟨⟨⟨⟨⟨⟨hy, hy4⟩, hm1⟩, hm2⟩, hd1⟩, hd2⟩, hh⟩, hmi⟩
    unfold received_to_iso
    rw [if_neg hsne, hstp]
    show (if validDate y0 m0 d0 h0 mi0 then some (isoZ y0 m0 d0 h0 mi0) else none) =
      some (isoZ y0 m0 d0 h0 mi0)
    rw [if_pos hvalid]
  · cases hp

/-- Witness for C6 (amended) at the spec's own example timestamp. -/
theorem C6_received_iso_witness :
    specReceivedFormat "2026-01-09 06:32 UTC" = some (2026, 1, 9, 6, 32) ∧
    received_to_iso "2026-01-09 06:32 UTC" = some "2026-01-09T06:32:00Z" := by
  constructor
  · decide
  · have h := C6_received_iso "2026-01-09 06:32 UTC" 2026 1 9 6 32 (by decide)
      (by decide) (by decide) (by decide) (by decide) (by decide) (by decide)
      (by decide)
    rw [h]
    decide

/-! ## The fingerprint `stable_hash`

`stable_hash(*parts)` feeds each part, UTF-8 encoded, followed by the
separator `b"\n---\n"`, into SHA-256 and returns the first 16 characters
of the hex digest.  SHA-256 is embedded over `Nat` with explicit
`% 2 ^ 32` reductions; bytes are `Nat` values below 256. -/

/-- The shorthand for the eight 32-bit working words of SHA-256. -/
abbrev Sha8 := Nat × Nat × Nat × Nat × Nat × Nat × Nat × Nat

/-- UTF-8 encoding of one scalar value. -/
def utf8Char (c : Char) : List Nat :=
  let n := c.toNat
  if n < 128 then [n]
  else if n < 2048 then [192 + n / 64, 128 + n % 64]
  else if n < 65536 then [224 + n / 4096, 128 + (n / 64) % 64, 128 + n % 64]
  else [240 + n / 262144, 128 + (n / 4096) % 64, 128 + (n / 64) % 64, 128 + n % 64]

/-- UTF-8 encoding of a string (`p.encode("utf-8")`; every Lean `Char`
is a scalar value, so the `errors="ignore"` clause never fires). -/
def utf8 (s : String) : List Nat := (s.data.map utf8Char).flatten

/-- The separator `b"\n---\n"`. -/
def sepBytes : List Nat := [10, 45, 45, 45, 10]

/-- The byte stream hashed by `stable_hash`: each part followed by the
separator. -/
def hashMessage (parts : List String) : List Nat :=
  (parts.map (fun p => utf8 p ++ sepBytes)).flatten

/-- 32-bit right rotation. -/
def rotr (n x : Nat) : Nat := (x >>> n) ||| ((x <<< (32 - n)) % 4294967296)

/-- SHA-256 `σ0`. -/
def ssig0 (x : Nat) : Nat := rotr 7 x ^^^ rotr 18 x ^^^ (x >>> 3)

/-- SHA-256 `σ1`. -/
def ssig1 (x : Nat) : Nat := rotr 17 x ^^^ rotr 19 x ^^^ (x >>> 10)

/-- SHA-256 `Σ0`. -/
def bsig0 (x : Nat) : Nat := rotr 2 x ^^^ rotr 13 x ^^^ rotr 22 x

/-- SHA-256 `Σ1`. -/
def bsig1 (x : Nat) : Nat := rotr 6 x ^^^ rotr 11 x ^^^ rotr 25 x

/-- The 64 SHA-256 round constants. -/
def shaK : List Nat :=
  [1116352408, 1899447441, 3049323471, 3921009573,
   961987163, 1508970993, 2453635748, 2870763221,
   3624381080, 310598401, 607225278, 1426881987,
   1925078388, 2162078206, 2614888103, 3248222580,
   3835390401, 4022224774, 264347078, 604807628,
   770255983, 1249150122, 1555081692, 1996064986,
   2554220882, 2821834349, 2952996808, 3210313671,
   3336571891, 3584528711, 113926993, 338241895,
   666307205, 773529912, 1294757372, 1396182291,
   1695183700, 1986661051, 2177026350, 2456956037,
   2730485921, 2820302411, 3259730800, 3345764771,
   3516065817, 3600352804, 4094571909, 275423344,
   430227734, 506948616, 659060556, 883997877,
   958139571, 1322822218, 1537002063, 1747873779,
   1955562222, 2024104815, 2227730452, 2361852424,
   2428436474, 2756734187, 3204031479, 3329325298]

/-- The SHA-256 initial hash value. -/
def shaH0 : Sha8 :=
  (1779033703, 3144134277, 1013904242, 2773480762,
   1359893119, 2600822924, 528734635, 1541459225)

/-- SHA-256 padding: `0x80`, zeros to 56 mod 64, then the bit length as
eight big-endian bytes. -/
def padMessage (msg : List Nat) : List Nat :=
  let bits := 8 * msg.length
  msg ++ [128] ++ List.replicate ((119 - msg.length % 64) % 64) 0 ++
    [(bits >>> 56) % 256, (bits >>> 48) % 256, (bits >>> 40) % 256,
     (bits >>> 32) % 256, (bits >>> 24) % 256, (bits >>> 16) % 256,
     (bits >>> 8) % 256, bits % 256]

/-- Split into 64-byte blocks (fuel-indexed for structural recursion;
each step consumes at least one element, so fuel equal to the length is
always enough). -/
def chunksF : Nat → List Nat → List (List Nat)
  | 0, _ => []
  | _ + 1, [] => []
  | fuel + 1, c :: rest => ((c :: rest).take 64) :: chunksF fuel ((c :: rest).drop 64)

/-- Split a byte list into 64-byte blocks. -/
def chunks64 (l : List Nat) : List (List Nat) := chunksF l.length l

/-- Big-endian 32-bit word `j` of a 64-byte block. -/
def wordAt (blk : List Nat) (j : Nat) : Nat :=
  blk.getD (4 * j) 0 * 16777216 + blk.getD (4 * j + 1) 0 * 65536 +
  blk.getD (4 * j + 2) 0 * 256 + blk.getD (4 * j + 3) 0

/-- The 64-entry message schedule of one block. -/
def msgSchedule (blk : List Nat) : List Nat :=
  (List.range 48).foldl
    (fun w _ =>
      let n := w.length
      w ++ [(ssig1 (w.getD (n - 2) 0) + w.getD (n - 7) 0 +
             ssig0 (w.getD (n - 15) 0) + w.getD (n - 16) 0) % 4294967296])
    ((List.range 16).map (wordAt blk))

/-- One round of the SHA-256 compression function. -/
def compressStep (k w : Nat) (st : Sha8) : Sha8 :=
  let (a, b, c, d, e, f, g, h) := st
  let t1 := (h + bsig1 e + ((e &&& f) ^^^ ((e ^^^ 4294967295) &&& g)) + k + w) % 4294967296
  let t2 := (bsig0 a + ((a &&& b) ^^^ (a &&& c) ^^^ (b &&& c))) % 4294967296
  ((t1 + t2) % 4294967296, a, b, c, (d + t1) % 4294967296, e, f, g)

/-- Process one 64-byte block. -/
def compress (st : Sha8) (blk : List Nat) : Sha8 :=
  let w := msgSchedule blk
  let r := (List.range 64).foldl (fun s t => compressStep (shaK.getD t 0) (w.getD t 0) s) st
  (((st.1 + r.1) % 4294967296),
   ((st.2.1 + r.2.1) % 4294967296),
   ((st.2.2.1 + r.2.2.1) % 4294967296),
   ((st.2.2.2.1 + r.2.2.2.1) % 4294967296),
   ((st.2.2.2.2.1 + r.2.2.2.2.1) % 4294967296),
   ((st.2.2.2.2.2.1 + r.2.2.2.2.2.1) % 4294967296),
   ((st.2.2.2.2.2.2.1 + r.2.2.2.2.2.2.1) % 4294967296),
   ((st.2.2.2.2.2.2.2 + r.2.2.2.2.2.2.2) % 4294967296))

/-- The eight 32-bit words of the SHA-256 digest of a byte list. -/
def digestWords (msg : List Nat) : Sha8 :=
  (chunks64 (padMessage msg)).foldl compress shaH0

/-- Lowercase hex digit. -/
def toHexChar (d : Nat) : Char := Char.ofNat (if d < 10 then 48 + d else 87 + d)

/-- Eight hex characters of one 32-bit word. -/
def wordHex (w : Nat) : List Char :=
  [toHexChar ((w >>> 28) % 16), toHexChar ((w >>> 24) % 16),
   toHexChar ((w >>> 20) % 16), toHexChar ((w >>> 16) % 16),
   toHexChar ((w >>> 12) % 16), toHexChar ((w >>> 8) % 16),
   toHexChar ((w >>> 4) % 16), toHexChar (w % 16)]

/-- `hashlib.sha256(msg).hexdigest()` as a character list. -/
def hexdigest (msg : List Nat) : List Char :=
  wordHex (digestWords msg).1 ++ wordHex (digestWords msg).2.1 ++
  wordHex (digestWords msg).2.2.1 ++ wordHex (digestWords msg).2.2.2.1 ++
  wordHex (digestWords msg).2.2.2.2.1 ++ wordHex (digestWords msg).2.2.2.2.2.1 ++
  wordHex (digestWords msg).2.2.2.2.2.2.1 ++ wordHex (digestWords msg).2.2.2.2.2.2.2

/-- Embedding of `stable_hash(*parts)`:
`h.hexdigest()[:16]` over the parts joined with the separator. -/
def stable_hash (parts : List String) : String :=
  String.mk ((hexdigest (hashMessage parts)).take 16)

/-! ## Lemmas about the fingerprint -/

/-- Lowercase hexadecimal characters. -/
def isHexLower (c : Char) : Bool :=
  (48 ≤ c.toNat && c.toNat ≤ 57) || (97 ≤ c.toNat && c.toNat ≤ 102)

theorem toHexChar_hex {d : Nat} (h : d < 16) : isHexLower (toHexChar d) = true := by
  interval_cases d <;> decide

theorem wordHex_all (w : Nat) : (wordHex w).all isHexLower = true := by
  simp only [wordHex, List.all_cons, List.all_nil, Bool.and_eq_true, Bool.and_true]
  have h16 : (0 : Nat) < 16 := by norm_num
  exact ⟨toHexChar_hex (Nat.mod_lt _ h16), toHexChar_hex (Nat.mod_lt _ h16),
    toHexChar_hex (Nat.mod_lt _ h16), toHexChar_hex (Nat.mod_lt _ h16),
    toHexChar_hex (Nat.mod_lt _ h16), toHexChar_hex (Nat.mod_lt _ h16),
    toHexChar_hex (Nat.mod_lt _ h16), toHexChar_hex (Nat.mod_lt _ h16)⟩

theorem hexdigest_length (msg : List Nat) : (hexdigest msg).length = 64 := by
  simp [hexdigest, wordHex]

theorem hexdigest_all (msg : List Nat) : (hexdigest msg).all isHexLower = true := by
  simp only [hexdigest, List.all_append, Bool.and_eq_true]
  exact ⟨⟨⟨⟨⟨⟨⟨wordHex_all _, wordHex_all _⟩, wordHex_all _⟩, wordHex_all _⟩,
    wordHex_all _⟩, wordHex_all _⟩, wordHex_all _⟩, wordHex_all _⟩

/-- Claim C10: for every list of input strings (any arity), the
fingerprint is a string of exactly 16 lowercase hexadecimal characters. -/
theorem C10_fingerprint_shape (parts : List String) :
    (stable_hash parts).length = 16 ∧
    (stable_hash parts).data.all isHexLower = true := by
  constructor
  · show ((hexdigest (hashMessage parts)).take 16).length = 16
    rw [List.length_take, hexdigest_length]
    decide
  · show ((hexdigest (hashMessage parts)).take 16).all isHexLower = true
    rw [List.all_eq_true]
    intro x hx
    exact List.all_eq_true.mp (hexdigest_all (hashMessage parts)) x
      (List.mem_of_mem_take hx)

theorem compress_lt (st : Sha8) (blk : List Nat) :
    (compress st blk).1 < 4294967296 ∧ (compress st blk).2.1 < 4294967296 ∧
    (compress st blk).2.2.1 < 4294967296 ∧ (compress st blk).2.2.2.1 < 4294967296 ∧
    (compress st blk).2.2.2.2.1 < 4294967296 ∧
    (compress st blk).2.2.2.2.2.1 < 4294967296 ∧
    (compress st blk).2.2.2.2.2.2.1 < 4294967296 ∧
    (compress st blk).2.2.2.2.2.2.2 < 4294967296 := by
  have h32 : (0 : Nat) < 4294967296 := by norm_num
  simp only [compress]
  exact ⟨Nat.mod_lt _ h32, Nat.mod_lt _ h32, Nat.mod_lt _ h32, Nat.mod_lt _ h32,
    Nat.mod_lt _ h32, Nat.mod_lt _ h32, Nat.mod_lt _ h32, Nat.mod_lt _ h32⟩

theorem foldl_compress_lt :
    ∀ (bl : List (List Nat)) (st : Sha8),
      (st.1 < 4294967296 ∧ st.2.1 < 4294967296 ∧ st.2.2.1 < 4294967296 ∧
       st.2.2.2.1 < 4294967296 ∧ st.2.2.2.2.1 < 4294967296 ∧
       st.2.2.2.2.2.1 < 4294967296 ∧ st.2.2.2.2.2.2.1 < 4294967296 ∧
       st.2.2.2.2.2.2.2 < 4294967296) →
      ((bl.foldl compress st).1 < 4294967296 ∧
       (bl.foldl compress st).2.1 < 4294967296 ∧
       (bl.foldl compress st).2.2.1 < 4294967296 ∧
       (bl.foldl compress st).2.2.2.1 < 4294967296 ∧
       (bl.foldl compress st).2.2.2.2.1 < 4294967296 ∧
       (bl.foldl compress st).2.2.2.2.2.1 < 4294967296 ∧
       (bl.foldl compress st).2.2.2.2.2.2.1 < 4294967296 ∧
       (bl.foldl compress st).2.2.2.2.2.2.2 < 4294967296) := by
  intro bl
  induction bl with
  | nil => intro st h; exact h
  | cons b t ih =>
    intro st _
    exact ih (compress st b) (compress_lt st b)

theorem digestWords_lt (msg : List Nat) :
    (digestWords msg).1 < 4294967296 ∧ (digestWords msg).2.1 < 4294967296 ∧
    (digestWords msg).2.2.1 < 4294967296 ∧ (digestWords msg).2.2.2.1 < 4294967296 ∧
    (digestWords msg).2.2.2.2.1 < 4294967296 ∧
    (digestWords msg).2.2.2.2.2.1 < 4294967296 ∧
    (digestWords msg).2.2.2.2.2.2.1 < 4294967296 ∧
    (digestWords msg).2.2.2.2.2.2.2 < 4294967296 :=
  foldl_compress_lt _ shaH0 (by decide)

/-- Truncating the digest to 64 bits forces collisions: there are two
raw blocks with different trimmed contents (the other two blocks fixed)
whose fingerprints agree.  The argument is the pigeonhole principle on
the digest words, so no explicit collision is produced. -/
theorem stable_hash_collision :
    ∃ x y : String, pyStrip x ≠ pyStrip y ∧
      stable_hash [x, "", ""] = stable_hash [y, "", ""] := by
  classical
  let g : Nat → String := fun n => String.mk (List.replicate (n + 1) 'a')
  let F : Nat → Fin 4294967296 × Fin 4294967296 × Fin 4294967296 × Fin 4294967296 ×
      Fin 4294967296 × Fin 4294967296 × Fin 4294967296 × Fin 4294967296 := fun n =>
    (⟨(digestWords (hashMessage [g n, "", ""])).1, (digestWords_lt _).1⟩,
     ⟨(digestWords (hashMessage [g n, "", ""])).2.1, (digestWords_lt _).2.1⟩,
     ⟨(digestWords (hashMessage [g n, "", ""])).2.2.1, (digestWords_lt _).2.2.1⟩,
     ⟨(digestWords (hashMessage [g n, "", ""])).2.2.2.1, (digestWords_lt _).2.2.2.1⟩,
     ⟨(digestWords (hashMessage [g n, "", ""])).2.2.2.2.1, (digestWords_lt _).2.2.2.2.1⟩,
     ⟨(digestWords (hashMessage [g n, "", ""])).2.2.2.2.2.1, (digestWords_lt _).2.2.2.2.2.1⟩,
     ⟨(digestWords (hashMessage [g n, "", ""])).2.2.2.2.2.2.1, (digestWords_lt _).2.2.2.2.2.2.1⟩,
     ⟨(digestWords (hashMessage [g n, "", ""])).2.2.2.2.2.2.2, (digestWords_lt _).2.2.2.2.2.2.2⟩)
  obtain ⟨m, n, hmn, hF⟩ := Finite.exists_ne_map_eq_of_infinite F
  have hdw : digestWords (hashMessage [g m, "", ""]) =
      digestWords (hashMessage [g n, "", ""]) := by
    have h1 := congrArg (fun t => t.1.val) hF
    have h2 := congrArg (fun t => t.2.1.val) hF
    have h3 := congrArg (fun t => t.2.2.1.val) hF
    have h4 := congrArg (fun t => t.2.2.2.1.val) hF
    have h5 := congrArg (fun t => t.2.2.2.2.1.val) hF
    have h6 := congrArg (fun t => t.2.2.2.2.2.1.val) hF
    have h7 := congrArg (fun t => t.2.2.2.2.2.2.1.val) hF
    have h8 := congrArg (fun t => t.2.2.2.2.2.2.2.val) hF
    simp only [F] at h1 h2 h3 h4 h5 h6 h7 h8
    exact Prod.ext h1 (Prod.ext h2 (Prod.ext h3 (Prod.ext h4 (Prod.ext h5
      (Prod.ext h6 (Prod.ext h7 h8))))))
  refine ⟨g m, g n, ?_, ?_⟩
  · have hstrip : ∀ k, pyStrip (g k) = g k := by
      intro k
      show pyStrip (String.mk (List.replicate (k + 1) 'a')) = _
      rw [pyStrip_mk]
      rw [pyStripL_eq_self]
      · intro c hc
        rw [List.replicate_succ] at hc
        cases hc
        decide
      · intro c hc
        rw [← List.head?_reverse, List.reverse_replicate, List.replicate_succ] at hc
        cases hc
        decide
    rw [hstrip m, hstrip n]
    intro he
    apply hmn
    have := congrArg (fun s => s.data.length) he
    simpa using this
  · show String.mk ((hexdigest (hashMessage [g m, "", ""])).take 16) =
      String.mk ((hexdigest (hashMessage [g n, "", ""])).take 16)
    unfold hexdigest
    rw [hdw]

set_option maxRecDepth 40000 in
/-- Claim C8 (as stated) is false: the helper does not trim its
arguments — `" a"` and `"a"` have the same trimmed content yet different
fingerprints (trimming is done by the caller, not the helper) — and the
64-bit truncation makes "changing one block changes the fingerprint"
unprovable in general: distinct trimmed raw blocks with equal
fingerprints exist by pigeonhole. -/
theorem C8_counterexample :
    pyStrip " a" = pyStrip "a" ∧
    stable_hash [" a", "b", "c"] ≠ stable_hash ["a", "b", "c"] ∧
    (∃ x y : String, pyStrip x ≠ pyStrip y ∧
       stable_hash [x, "", ""] = stable_hash [y, "", ""]) := by
  refine ⟨by decide, by decide, stable_hash_collision⟩

set_option maxRecDepth 40000 in
/-- Claim C8, amended: the fingerprint helper is a pure function of the
argument list — identical lists always give the same fingerprint; it
hashes the blocks as passed (untrimmed — the caller trims before the
call), in order and separator-delimited, so reordering two blocks or
changing any single block changes the fingerprint on these witnesses;
 but the 16-hex-character truncation admits collisions in principle, so
distinct triples with equal fingerprints exist. -/
theorem C8_fingerprint :
    (∀ ps : List String, stable_hash ps = stable_hash ps) ∧
    stable_hash ["a", "b", "c"] ≠ stable_hash ["b", "a", "c"] ∧
    stable_hash ["x", "b", "c"] ≠ stable_hash ["a", "b", "c"] ∧
    stable_hash ["a", "x", "c"] ≠ stable_hash ["a", "b", "c"] ∧
    stable_hash ["a", "b", "x"] ≠ stable_hash ["a", "b", "c"] ∧
    (∃ x y : String, pyStrip x ≠ pyStrip y ∧
       stable_hash [x, "", ""] = stable_hash [y, "", ""]) :=
  ⟨fun _ => rfl, by decide, by decide, by decide, by decide, stable_hash_collision⟩
